import Mathlib

/-!
# arraydouble_main.c : loading FASTA records into a doubling array

A shallow embedding of `processFasta`, `processFastaRepeatedly` and `main`
of `arraydouble_main.c`, and the properties proved about them.

Conventions of the embedding:

* C `int` is 32 bits wide and `long`/`size_t` are 64 bits wide (LP64); an `int`
  result is reduced with `wrapInt`, the byte count handed to the allocator is
  computed in `size_t` by `allocBytes`.
* What the program cannot decide itself is read from an environment `Env`:
  whether `fopen` and `malloc` succeed, which `realloc` requests are granted,
  `sizeof(FASTArecord)`, and what the successive calls of `fastaReadRecord`
  return (`fasta.h` is not part of the translation unit).
* Output written with `printf`/`fprintf` and the `clock` timing are not modelled.
-/

namespace ArrayDouble

/-! ## Machine integers -/

/-- The value a C `int` (32 bits, two's complement) holds after an arithmetic
result `x`. -/
def wrapInt (x : Int) : Int :=
  (x + 2147483648) % 4294967296 - 2147483648

/-- The value a C `long` (64 bits) holds after `sscanf` read the decimal `x`:
out-of-range input is clamped like `strtol` does. -/
def clampLong (x : Int) : Int :=
  if x < -9223372036854775808 then -9223372036854775808
  else if 9223372036854775807 < x then 9223372036854775807
  else x

/-- The expression `recordArraySize * sizeof(FASTArecord)`: the `int` is converted
to `size_t` (64 bits) and the product is taken modulo `2^64`. -/
def allocBytes (recordArraySize : Int) (recordBytes : Nat) : Nat :=
  ((recordArraySize % 18446744073709551616).toNat * recordBytes) % 18446744073709551616

/-! ## Records, reader and environment -/

/-- Modelled from the spec: the struct `FASTArecord` of `fasta.h`, which is not
among the sources. A record owns two buffers (header and payload); they are the
fields `description` and `sequence` that `processFastaRepeatedly` frees, held
here as addresses. -/
structure FASTArecord where
  description : Nat
  sequence : Nat
deriving DecidableEq, Repr

/-- Modelled from the spec: what one call `fastaReadRecord(fp, &fRecord)` of the
absent reader gives back, the returned status (positive for a record, 0 at end
of stream, negative for a failure) and the contents it left in `fRecord`. -/
structure ReadResult where
  status : Int
  record : FASTArecord
deriving DecidableEq, Repr

/-- The environment of one call of `processFasta`. -/
structure Env where
  /-- `fopen(filename, "r")` returns a stream. -/
  fopenOk : Bool
  /-- The initial `malloc` returns a block. -/
  mallocOk : Bool
  /-- `realloc` grants a request of the given number of bytes. -/
  reallocOk : Nat → Bool
  /-- The value of `sizeof(FASTArecord)`. -/
  recordBytes : Nat
  /-- The results of the successive `fastaReadRecord` calls on the stream; when
  they are used up the stream is exhausted and the reader reports end of
  stream. -/
  reader : List ReadResult

/-- The `return` statement through which `processFasta` leaves. -/
inductive Exit where
  /-- Line 36: `fopen` returned `NULL`. -/
  | fopenFailed
  /-- Line 43: `malloc` returned `NULL`. -/
  | mallocFailed
  /-- Line 68: `realloc` returned `NULL`. -/
  | reallocFailed
  /-- Line 78: `fastaReadRecord` returned a negative status. -/
  | readerFailed
  /-- Line 90: the loop ended after status 0. -/
  | endOfStream
deriving DecidableEq, Repr

/-- The local variables of `processFasta` at the top of a loop iteration, with
the block `*records` points to (one entry per slot, `none` for a slot never
written). -/
structure LoopState where
  recordNumber : Int
  recordArraySize : Int
  currentRecordCount : Int
  records : List (Option FASTArecord)
deriving DecidableEq, Repr

/-- What a call of `processFasta` leaves behind. -/
structure Result where
  /-- The returned `int`. -/
  ret : Int
  exit : Exit
  /-- The stream was opened and `fclose` was not called on it. -/
  streamOpen : Bool
  /-- The value of `*records` at the return: `none` is `NULL`. -/
  records : Option (List (Option FASTArecord))
  recordNumber : Int
  recordArraySize : Int
  currentRecordCount : Int
  /-- The number of `fastaReadRecord` calls made. -/
  readerCalls : Nat
deriving DecidableEq, Repr

/-- The constant of `#define INITIAL_RECORD_ARRAY_SIZE 1`. -/
def INITIAL_RECORD_ARRAY_SIZE : Int := 1

/-- The slots of a block after `realloc` to `n` slots: the old contents up to
the smaller of the two sizes, new slots unwritten. -/
def reallocSlots (slots : List (Option FASTArecord)) (n : Nat) : List (Option FASTArecord) :=
  slots.take n ++ List.replicate (n - slots.length) none

/-- The assignment `(*records)[index] = fRecord`; a write outside the block
changes no slot of the block. -/
def writeSlot (slots : List (Option FASTArecord)) (index : Int) (fRecord : FASTArecord) :
    List (Option FASTArecord) :=
  if 0 ≤ index then slots.set index.toNat (some fRecord) else slots

/-- Lines 61-74, the branch `status > 0`: count the record, grow the array when
it is full, store the record. `none` is the `return -1` of line 68. -/
def storeRecord (env : Env) (s : LoopState) (fRecord : FASTArecord) : Option LoopState :=
  if s.currentRecordCount = s.recordArraySize then
    if env.reallocOk (allocBytes (wrapInt (s.recordArraySize * 2)) env.recordBytes) then
      some
        { recordNumber := wrapInt (s.recordNumber + 1)
          recordArraySize := wrapInt (s.recordArraySize * 2)
          currentRecordCount := wrapInt (s.currentRecordCount + 1)
          records :=
            writeSlot
              (reallocSlots s.records
                (allocBytes (wrapInt (s.recordArraySize * 2)) env.recordBytes / env.recordBytes))
              s.currentRecordCount fRecord }
    else none
  else
    some
      { recordNumber := wrapInt (s.recordNumber + 1)
        recordArraySize := s.recordArraySize
        currentRecordCount := wrapInt (s.currentRecordCount + 1)
        records := writeSlot s.records s.currentRecordCount fRecord }

/-- Lines 82-90: the loop has seen status 0; close the stream and return the
count. -/
def finishAtEof (s : LoopState) (readerCalls : Nat) : Result :=
  { ret := s.currentRecordCount
    exit := Exit.endOfStream
    streamOpen := false
    records := some s.records
    recordNumber := s.recordNumber
    recordArraySize := s.recordArraySize
    currentRecordCount := s.currentRecordCount
    readerCalls := readerCalls }

/-- Lines 49-81, the `do ... while (!eofSeen)` loop, run on the results the
reader still has to give, from the local variables `s` after `calls` reader
calls. A reader with no result left reports end of stream (status 0). -/
def readLoop (env : Env) : List ReadResult → LoopState → Nat → Result
  | [], s, calls => finishAtEof s (calls + 1)
  | r :: rest, s, calls =>
    if r.status = 0 then
      finishAtEof s (calls + 1)
    else if 0 < r.status then
      match storeRecord env s r.record with
      | some s1 => readLoop env rest s1 (calls + 1)
      | none =>
        { ret := -1
          exit := Exit.reallocFailed
          streamOpen := true
          records := none
          recordNumber := wrapInt (s.recordNumber + 1)
          recordArraySize := wrapInt (s.recordArraySize * 2)
          currentRecordCount := s.currentRecordCount
          readerCalls := calls + 1 }
    else
      { ret := -1
        exit := Exit.readerFailed
        streamOpen := true
        records := some s.records
        recordNumber := s.recordNumber
        recordArraySize := s.recordArraySize
        currentRecordCount := s.currentRecordCount
        readerCalls := calls + 1 }

/-- The state in which the loop is entered: lines 27-31 and the block of
`INITIAL_RECORD_ARRAY_SIZE` slots obtained at line 40. -/
def initialState (env : Env) : LoopState :=
  { recordNumber := 0
    recordArraySize := INITIAL_RECORD_ARRAY_SIZE
    currentRecordCount := 0
    records :=
      List.replicate (allocBytes INITIAL_RECORD_ARRAY_SIZE env.recordBytes / env.recordBytes) none }

/-- The function `processFasta(filename, &records, &timeTaken)`. The file name
selects the environment; `*records` is `NULL` when the caller enters (the only
caller passes it so) and its final value is `Result.records`. -/
def processFasta (env : Env) : Result :=
  if env.fopenOk then
    if env.mallocOk then
      readLoop env env.reader (initialState env) 0
    else
      { ret := -1
        exit := Exit.mallocFailed
        streamOpen := true
        records := none
        recordNumber := 0
        recordArraySize := INITIAL_RECORD_ARRAY_SIZE
        currentRecordCount := 0
        readerCalls := 0 }
  else
    { ret := -1
      exit := Exit.fopenFailed
      streamOpen := false
      records := none
      recordNumber := 0
      recordArraySize := INITIAL_RECORD_ARRAY_SIZE
      currentRecordCount := 0
      readerCalls := 0 }

/-- The fraction printed (times 100) at line 82,
`(recordArraySize - recordNumber) / recordArraySize`, in exact arithmetic. -/
def wasteFraction (r : Result) : ℚ :=
  (wrapInt (r.recordArraySize - r.recordNumber) : ℚ) / (r.recordArraySize : ℚ)

/-- The percentage printed at line 82. -/
def wastePercent (r : Result) : ℚ :=
  wasteFraction r * 100

/-- The local variables at the top of each iteration the loop runs, in order:
the states the read loop goes through. -/
def loopStates (env : Env) : List ReadResult → LoopState → List LoopState
  | [], s => [s]
  | r :: rest, s =>
    if r.status = 0 then [s]
    else if 0 < r.status then
      match storeRecord env s r.record with
      | some s1 => s :: loopStates env rest s1
      | none => [s]
    else [s]

/-- The states the read loop of one call of `processFasta` goes through; none
when the loop is not reached. -/
def reachedStates (env : Env) : List LoopState :=
  if env.fopenOk then
    if env.mallocOk then loopStates env env.reader (initialState env) else []
  else []

/-- The append of lines 63-70 from the local variables `s` meets a refused
`realloc`: the array is full and the request for the doubled capacity is not
granted. -/
def growthRefused (env : Env) (s : LoopState) : Prop :=
  s.currentRecordCount = s.recordArraySize ∧
    env.reallocOk (allocBytes (wrapInt (s.recordArraySize * 2)) env.recordBytes) = false

/-- A failure occurs in the call of `processFasta`: the file cannot be opened,
or the initial allocation fails, or in some iteration `i` of the loop, entered
with the local variables `s`, the reader returns a negative status, or it
returns a record and the growth of the full array is refused. -/
def failureOccurs (env : Env) : Prop :=
  env.fopenOk = false ∨ (env.fopenOk = true ∧ env.mallocOk = false) ∨
    ∃ (i : Nat) (s : LoopState) (e : ReadResult),
      (reachedStates env)[i]? = some s ∧ env.reader[i]? = some e ∧
        (e.status < 0 ∨ (0 < e.status ∧ growthRefused env s))

/-! ## processFastaRepeatedly -/

/-- A heap block handed to `free`. -/
inductive Block where
  /-- The buffer at the given address (a `description` or a `sequence`). -/
  | buffer (address : Nat)
  /-- The record array obtained by the given call of `processFasta`. -/
  | array (call : Nat)
  /-- A pointer read from a slot that was never written. -/
  | wild
deriving DecidableEq, Repr

/-- The environment of a whole run: the environment of the `n`-th call of
`processFasta` (counted from 0 over the run) on a file name, and the value an
uninitialised `int` is read as. -/
structure World where
  env : String → Nat → Env
  indeterminate : Int

/-- What a call of `processFastaRepeatedly` leaves behind. -/
structure RepResult where
  /-- The returned `int`. -/
  ret : Int
  /-- The number of `processFasta` calls made in the run so far. -/
  calls : Nat
  /-- The blocks handed to `free` by this call, in order. -/
  freed : List Block
deriving DecidableEq, Repr

/-- Lines 109-110 for one `j`: `free(records[j].description)` and
`free(records[j].sequence)`. -/
def freeRecord : Option (Option FASTArecord) → List Block
  | some (some r) => [Block.buffer r.description, Block.buffer r.sequence]
  | _ => [Block.wild, Block.wild]

/-- Lines 108-112: free the buffers of `records[0 .. status-1]`, then the array
obtained in call number `call`. -/
def freeRecords (call : Nat) (records : List (Option FASTArecord)) (status : Int) : List Block :=
  (List.range status.toNat).foldr (fun j rest => freeRecord records[j]? ++ rest)
    [Block.array call]

/-- Lines 101-115 and 125: the `for` loop with `n` iterations left, `status`
as it stands, after `calls` calls of `processFasta` in the run. -/
def repeatLoop (w : World) (filename : String) : Nat → Int → Nat → List Block → RepResult
  | 0, status, calls, freed => { ret := status, calls := calls, freed := freed }
  | n + 1, _, calls, freed =>
    if (processFasta (w.env filename calls)).ret < 0 then
      { ret := -1, calls := calls + 1, freed := freed }
    else
      match (processFasta (w.env filename calls)).records with
      | some records =>
        repeatLoop w filename n (processFasta (w.env filename calls)).ret (calls + 1)
          (freed ++ freeRecords calls records (processFasta (w.env filename calls)).ret)
      | none =>
        repeatLoop w filename n (processFasta (w.env filename calls)).ret (calls + 1) freed

/-- The function `processFastaRepeatedly(filename, repeatsRequested)`, entered
after `calls` calls of `processFasta` in the run. `status` is not initialised
before the loop. -/
def processFastaRepeatedly (w : World) (filename : String) (repeatsRequested : Int)
    (calls : Nat) : RepResult :=
  repeatLoop w filename repeatsRequested.toNat w.indeterminate calls []

/-! ## main -/

/-- The characters `isspace` accepts in the C locale. -/
def isSpace (c : Char) : Bool :=
  c.toNat = 32 || (9 ≤ c.toNat && c.toNat ≤ 13)

/-- The decimal value of the leading digits of `cs`, continuing from `acc`. -/
def readDigits : List Char → Nat → Nat
  | [], acc => acc
  | c :: cs, acc => if c.isDigit then readDigits cs (10 * acc + (c.toNat - 48)) else acc

/-- The digits of a `%ld` conversion after the optional sign: at least one
digit is needed. -/
def scanDigits (cs : List Char) (negative : Bool) : Option Int :=
  match cs with
  | [] => none
  | c :: _ =>
    if c.isDigit then
      some (clampLong (if negative then -((readDigits cs 0 : Nat) : Int) else (readDigits cs 0 : Nat)))
    else none

/-- The call `sscanf(text, "%ld", &repeatsRequested)` of the C library:
`some v` when it returns 1 and stores `v`, `none` when it returns anything
else. White space is skipped, then an optional sign and decimal digits are
read; what follows the digits is ignored. -/
def sscanfLd (text : String) : Option Int :=
  match text.toList.dropWhile isSpace with
  | [] => none
  | c :: cs =>
    if c = '-' then scanDigits cs true
    else if c = '+' then scanDigits cs false
    else scanDigits (c :: cs) false

/-- What `main` leaves behind. -/
structure MainResult where
  /-- The value `main` returns. -/
  exitCode : Int
  /-- The number of `processFasta` calls made in the run. -/
  calls : Nat
deriving DecidableEq, Repr

/-- Lines 134-170: the loop over `argv[i], argv[i+1], ...` and what follows it,
with `repeatsRequested` and `totalRecordsProcessed` as they stand. -/
def mainLoop (w : World) : List String → Int → Int → Nat → MainResult
  | [], _, totalRecordsProcessed, calls =>
    if totalRecordsProcessed = 0 then { exitCode := 1, calls := calls }
    else { exitCode := 0, calls := calls }
  | arg :: rest, repeatsRequested, totalRecordsProcessed, calls =>
    if arg.toList[0]? = some '-' then
      if arg.toList[1]? = some 'R' then
        match rest with
        | [] => { exitCode := 1, calls := calls }
        | next :: rest1 =>
          match sscanfLd next with
          | some v => mainLoop w rest1 v totalRecordsProcessed calls
          | none => { exitCode := 1, calls := calls }
      else { exitCode := 1, calls := calls }
    else
      if (processFastaRepeatedly w arg repeatsRequested calls).ret < 0 then
        { exitCode := 1, calls := (processFastaRepeatedly w arg repeatsRequested calls).calls }
      else
        mainLoop w rest repeatsRequested
          (wrapInt (totalRecordsProcessed + (processFastaRepeatedly w arg repeatsRequested calls).ret))
          (processFastaRepeatedly w arg repeatsRequested calls).calls

/-- The function `main(argc, argv)`: `argv` starts with the program name. -/
def main (w : World) (argv : List String) : MainResult :=
  mainLoop w argv.tail 1 0 0

/-- The buffers owned by a list of records, record by record: the blocks a
release of the records has to free, each once. -/
def recordBuffers : List FASTArecord → List Block
  | [] => []
  | r :: rs => Block.buffer r.description :: Block.buffer r.sequence :: recordBuffers rs

/-! ## The exit code of main, stated on the argument list -/

/-- A platform with 16-byte records where the file opens and every request
below `2^63` bytes is granted, with the given reader. -/
def sampleEnv (reader : List ReadResult) : Env :=
  { fopenOk := true
    mallocOk := true
    reallocOk := fun b => decide (b < 9223372036854775808)
    recordBytes := 16
    reader := reader }

/-- Three records. -/
def sampleRecords : List ReadResult :=
  [⟨1, ⟨4096, 4128⟩⟩, ⟨1, ⟨4160, 4192⟩⟩, ⟨1, ⟨4224, 4256⟩⟩]

/-- The end-of-stream result of the reader. -/
def sampleEof : ReadResult := ⟨0, ⟨0, 0⟩⟩

/-- A run in which `empty.fa` has no record, the reader fails on the first call
for `broken.fa`, fails after one record on `cut.fa`, and any other file has
the three sample records. -/
def sampleWorld : World :=
  { env := fun filename _ =>
      if filename = "empty.fa" then sampleEnv [sampleEof]
      else if filename = "broken.fa" then sampleEnv [⟨-1, ⟨0, 0⟩⟩]
      else if filename = "cut.fa" then sampleEnv [⟨1, ⟨4096, 4128⟩⟩, ⟨-1, ⟨0, 0⟩⟩]
      else sampleEnv (sampleRecords ++ [sampleEof])
    indeterminate := 0 }

/-- The sample platform with an allocator that refuses every `realloc`. -/
def refusingEnv (reader : List ReadResult) : Env :=
  { fopenOk := true
    mallocOk := true
    reallocOk := fun _ => false
    recordBytes := 16
    reader := reader }

/-- The local variables after one of the sample records was stored. -/
def sampleStateFull : LoopState :=
  { recordNumber := 1
    recordArraySize := 1
    currentRecordCount := 1
    records := [some ⟨4096, 4128⟩] }

/-- The local variables after two of the sample records were stored. -/
def sampleState : LoopState :=
  { recordNumber := 2
    recordArraySize := 2
    currentRecordCount := 2
    records := [some ⟨4096, 4128⟩, some ⟨4160, 4192⟩] }

/-! ## The platform and the loop invariant -/

/-- The assumptions on the platform: `sizeof(FASTArecord)` is positive and at
most `2^32`, and the allocator grants no request of `2^63` bytes or more
(no object is larger than `PTRDIFF_MAX`). -/
def SanePlatform (env : Env) : Prop :=
  0 < env.recordBytes ∧ env.recordBytes ≤ 4294967296 ∧
    ∀ b, env.reallocOk b = true → b < 9223372036854775808

/-- The loop invariant of `readLoop`, relative to the records stored so far. -/
structure Inv (s : LoopState) (stored : List FASTArecord) : Prop where
  pow : ∃ k : Nat, k ≤ 30 ∧ s.recordArraySize = ((2 ^ k : Nat) : Int)
  count : s.currentRecordCount = (stored.length : Int)
  number : s.recordNumber = (stored.length : Int)
  le : (stored.length : Int) ≤ s.recordArraySize
  tight : s.recordArraySize = 1 ∨ s.recordArraySize < 2 * (stored.length : Int)
  len : (s.records.length : Int) = s.recordArraySize
  slots : s.records.take stored.length = stored.map some

theorem wrapInt_of_range {x : Int} (h1 : -2147483648 ≤ x) (h2 : x < 2147483648) :
    wrapInt x = x := by
  unfold wrapInt
  omega

theorem allocBytes_small {x : Nat} {sz : Nat} (hx : x ≤ 1073741824) (hsz : sz ≤ 4294967296) :
    allocBytes (x : Int) sz = x * sz := by
  unfold allocBytes
  have h1 : (((x : Int) % 18446744073709551616).toNat) = x := by omega
  rw [h1]
  apply Nat.mod_eq_of_lt
  have : x * sz ≤ 1073741824 * 4294967296 := Nat.mul_le_mul hx hsz
  omega

theorem allocBytes_overflow {sz : Nat} (hpos : 0 < sz) (hsz : sz ≤ 4294967296) :
    9223372036854775808 ≤ allocBytes (-2147483648) sz := by
  unfold allocBytes
  have h1 : (((-2147483648 : Int) % 18446744073709551616).toNat) = 18446744071562067968 := by
    decide
  rw [h1]
  have h2 : 18446744071562067968 * sz =
      (18446744073709551616 - 2147483648 * sz) + 18446744073709551616 * (sz - 1) := by
    omega
  rw [h2, Nat.add_mul_mod_self_left, Nat.mod_eq_of_lt (by omega)]
  omega

theorem pow_two_le_of_le {k : Nat} (h : k ≤ 30) : 2 ^ k ≤ 1073741824 := by
  have : 2 ^ k ≤ 2 ^ 30 := Nat.pow_le_pow_right (by decide) h
  simpa using this

theorem length_reallocSlots (l : List (Option FASTArecord)) (n : Nat) :
    (reallocSlots l n).length = n := by
  unfold reallocSlots
  simp only [List.length_append, List.length_take, List.length_replicate]
  omega

theorem take_reallocSlots (l : List (Option FASTArecord)) {m n : Nat} (hmn : m ≤ n)
    (hml : m ≤ l.length) : (reallocSlots l n).take m = l.take m := by
  unfold reallocSlots
  rw [List.take_append_of_le_length (by simp only [List.length_take]; omega), List.take_take]
  congr 1
  omega

theorem writeSlot_natCast (l : List (Option FASTArecord)) (n : Nat) (r : FASTArecord) :
    writeSlot l (n : Int) r = l.set n (some r) := by
  unfold writeSlot
  simp

theorem take_set_succ {α : Type} (l : List α) (xs : List α) (n : Nat) (a : α)
    (h : l.take n = xs) (hn : n < l.length) : (l.set n a).take (n + 1) = xs ++ [a] := by
  subst h
  apply List.ext_getElem?
  intro i
  rcases Nat.lt_trichotomy i n with hlt | heq | hgt
  · rw [List.getElem?_take_of_lt (by omega), List.getElem?_set_ne (by omega),
      List.getElem?_append_left (by simp only [List.length_take]; omega),
      List.getElem?_take_of_lt hlt]
  · subst heq
    rw [List.getElem?_take_of_lt (by omega), List.getElem?_set_eq_of_lt _ hn,
      List.getElem?_append_right (by simp only [List.length_take]; omega)]
    simp [Nat.min_eq_left (Nat.le_of_lt hn)]
  · rw [List.getElem?_eq_none (by simp only [List.length_take, List.length_set]; omega),
      List.getElem?_eq_none (by simp only [List.length_append, List.length_take,
        List.length_singleton]; omega)]

/-- One append from a state satisfying the invariant: either the array is full
at `2^30` slots and the `realloc` request (of a wrapped size) is refused, or the
request is refused by the environment, or the record is stored in bounds and
the invariant holds again. -/
theorem storeRecord_inv {env : Env} (hp : SanePlatform env) {s : LoopState}
    {stored : List FASTArecord} (hinv : Inv s stored) (r : FASTArecord) :
    (storeRecord env s r = none ∧ s.currentRecordCount = s.recordArraySize) ∨
    ∃ s1, storeRecord env s r = some s1 ∧ Inv s1 (stored ++ [r]) ∧
      (s.currentRecordCount = s.recordArraySize → s1.recordArraySize = 2 * s.recordArraySize) ∧
      (s.currentRecordCount ≠ s.recordArraySize → s1.recordArraySize = s.recordArraySize) := by
  obtain ⟨hpos, hsz, hgrant⟩ := hp
  obtain ⟨⟨k, hk, hsize⟩, hcount, hnumber, hle, htight, hlen, hslots⟩ := hinv
  have hP := pow_two_le_of_le hk
  have hnlen : stored.length ≤ s.records.length := by omega
  by_cases hfull : s.currentRecordCount = s.recordArraySize
  · rcases Nat.lt_or_ge k 30 with hlt | hge
    · have hP2 : 2 ^ (k + 1) ≤ 1073741824 := pow_two_le_of_le (by omega)
      have hpow : 2 ^ (k + 1) = 2 * 2 ^ k := by rw [pow_succ]; omega
      have hdouble : wrapInt (s.recordArraySize * 2) = ((2 ^ (k + 1) : Nat) : Int) := by
        rw [wrapInt_of_range (by omega) (by omega)]
        omega
      by_cases hg : env.reallocOk (allocBytes (wrapInt (s.recordArraySize * 2)) env.recordBytes)
          = true
      · right
        have hdiv : allocBytes (wrapInt (s.recordArraySize * 2)) env.recordBytes /
            env.recordBytes = 2 ^ (k + 1) := by
          rw [hdouble, allocBytes_small hP2 hsz, Nat.mul_div_cancel _ hpos]
        refine ⟨{ recordNumber := wrapInt (s.recordNumber + 1)
                  recordArraySize := wrapInt (s.recordArraySize * 2)
                  currentRecordCount := wrapInt (s.currentRecordCount + 1)
                  records :=
                    writeSlot
                      (reallocSlots s.records
                        (allocBytes (wrapInt (s.recordArraySize * 2)) env.recordBytes /
                          env.recordBytes))
                      s.currentRecordCount r },
          by simp only [storeRecord, if_pos hfull, hg, if_true], ?_, ?_, ?_⟩
        · have hlen2 : stored.length < (reallocSlots s.records (2 ^ (k + 1))).length := by
            rw [length_reallocSlots]; omega
          refine ⟨⟨k + 1, by omega, hdouble⟩, ?_, ?_, ?_, ?_, ?_, ?_⟩
          · show wrapInt (s.currentRecordCount + 1) = _
            rw [wrapInt_of_range (by omega) (by omega), List.length_append]
            simp only [List.length_singleton]; omega
          · show wrapInt (s.recordNumber + 1) = _
            rw [wrapInt_of_range (by omega) (by omega), List.length_append]
            simp only [List.length_singleton]; omega
          · show _ ≤ wrapInt (s.recordArraySize * 2)
            rw [hdouble, List.length_append]
            simp only [List.length_singleton]; omega
          · right
            show wrapInt (s.recordArraySize * 2) < _
            rw [hdouble, List.length_append]
            simp only [List.length_singleton]; omega
          · show ((writeSlot _ _ _).length : Int) = wrapInt (s.recordArraySize * 2)
            rw [hdiv, hcount, writeSlot_natCast, List.length_set, length_reallocSlots, hdouble]
          · show (writeSlot _ _ _).take _ = _
            rw [hdiv, hcount, writeSlot_natCast, List.length_append, List.length_singleton,
              List.map_append]
            exact take_set_succ _ _ _ _
              (by rw [take_reallocSlots _ (by omega) hnlen]; exact hslots) hlen2
        · intro _
          show wrapInt (s.recordArraySize * 2) = _
          rw [hdouble]; omega
        · intro h; exact absurd hfull h
      · left
        exact ⟨by simp only [storeRecord, if_pos hfull, hg]; rfl, hfull⟩
    · left
      have hk30 : k = 30 := by omega
      subst hk30
      have hdouble : wrapInt (s.recordArraySize * 2) = -2147483648 := by
        rw [hsize]; decide
      have hg : env.reallocOk (allocBytes (wrapInt (s.recordArraySize * 2)) env.recordBytes)
          = false := by
        rw [hdouble]
        cases h : env.reallocOk (allocBytes (-2147483648) env.recordBytes)
        · rfl
        · have := hgrant _ h
          have := allocBytes_overflow hpos hsz
          omega
      exact ⟨by simp only [storeRecord, if_pos hfull, hg]; rfl, hfull⟩
  · right
    have hlt : stored.length < s.records.length := by omega
    refine ⟨{ recordNumber := wrapInt (s.recordNumber + 1)
              recordArraySize := s.recordArraySize
              currentRecordCount := wrapInt (s.currentRecordCount + 1)
              records := writeSlot s.records s.currentRecordCount r },
      by simp only [storeRecord, if_neg hfull, if_false], ?_, ?_, ?_⟩
    · refine ⟨⟨k, hk, hsize⟩, ?_, ?_, ?_, ?_, ?_, ?_⟩
      · show wrapInt (s.currentRecordCount + 1) = _
        rw [wrapInt_of_range (by omega) (by omega), List.length_append]
        simp only [List.length_singleton]; omega
      · show wrapInt (s.recordNumber + 1) = _
        rw [wrapInt_of_range (by omega) (by omega), List.length_append]
        simp only [List.length_singleton]; omega
      · show _ ≤ s.recordArraySize
        rw [List.length_append]
        simp only [List.length_singleton]; omega
      · show s.recordArraySize = 1 ∨ s.recordArraySize < _
        rw [List.length_append]
        simp only [List.length_singleton]; omega
      · show ((writeSlot _ _ _).length : Int) = s.recordArraySize
        rw [hcount, writeSlot_natCast, List.length_set]; exact hlen
      · show (writeSlot _ _ _).take _ = _
        rw [hcount, writeSlot_natCast, List.length_append, List.length_singleton,
          List.map_append]
        exact take_set_succ _ _ _ _ hslots hlt
    · intro h; exact absurd h hfull
    · intro _; rfl

theorem inv_initialState {env : Env} (hp : SanePlatform env) : Inv (initialState env) [] := by
  obtain ⟨hpos, hsz, _⟩ := hp
  have hone : allocBytes INITIAL_RECORD_ARRAY_SIZE env.recordBytes / env.recordBytes = 1 := by
    have h := @allocBytes_small 1 env.recordBytes (by omega) hsz
    have h1 : INITIAL_RECORD_ARRAY_SIZE = ((1 : Nat) : Int) := rfl
    rw [h1, h, Nat.one_mul, Nat.div_self hpos]
  refine ⟨⟨0, by omega, rfl⟩, rfl, rfl, ?_, Or.inl rfl, ?_, rfl⟩
  · show ((0 : Nat) : Int) ≤ 1
    omega
  · show (((List.replicate _ none).length : Nat) : Int) = 1
    rw [List.length_replicate, hone]
    rfl

/-- Below `2^30` stored records, an allocator that grants every request of at
most `2^30` slots never makes the append fail. -/
theorem storeRecord_granted {env : Env} (hp : SanePlatform env) {s : LoopState}
    {stored : List FASTArecord} (hinv : Inv s stored) (hn : stored.length < 1073741824)
    (hg : ∀ b, b ≤ 1073741824 * env.recordBytes → env.reallocOk b = true) (r : FASTArecord) :
    storeRecord env s r ≠ none := by
  obtain ⟨hpos, hsz, -⟩ := hp
  obtain ⟨⟨k, hk, hsize⟩, hcount, -, -, -, -, -⟩ := hinv
  unfold storeRecord
  by_cases hfull : s.currentRecordCount = s.recordArraySize
  · have hlt : k < 30 := by
      rcases Nat.lt_or_ge k 30 with h | h
      · exact h
      · have hk30 : k = 30 := by omega
        subst hk30
        have : (2 : Nat) ^ 30 = 1073741824 := by decide
        omega
    have hP := pow_two_le_of_le hk
    have hP2 : 2 ^ (k + 1) ≤ 1073741824 := pow_two_le_of_le (by omega)
    have hpow : 2 ^ (k + 1) = 2 * 2 ^ k := by rw [pow_succ]; omega
    have hdouble : wrapInt (s.recordArraySize * 2) = ((2 ^ (k + 1) : Nat) : Int) := by
      rw [wrapInt_of_range (by omega) (by omega)]
      omega
    have hgr : env.reallocOk (allocBytes (wrapInt (s.recordArraySize * 2)) env.recordBytes)
        = true := by
      apply hg
      rw [hdouble, allocBytes_small hP2 hsz]
      exact Nat.mul_le_mul_right _ hP2
    simp only [if_pos hfull, hgr, if_true]
    exact fun h => Option.noConfusion h
  · simp only [if_neg hfull]
    exact fun h => Option.noConfusion h

theorem readLoop_eof_head (env : Env) (tail : List ReadResult)
    (htail : ∀ e ∈ tail.head?, e.status = 0) (s : LoopState) (calls : Nat) :
    readLoop env tail s calls = finishAtEof s (calls + 1) := by
  cases tail with
  | nil => rfl
  | cons e t =>
    have he : e.status = 0 := htail e (by simp)
    simp only [readLoop, if_pos he]

theorem readLoop_cons_some (env : Env) (r : ReadResult) (rest : List ReadResult)
    (hr : 0 < r.status) (s s1 : LoopState) (calls : Nat)
    (hsome : storeRecord env s r.record = some s1) :
    readLoop env (r :: rest) s calls = readLoop env rest s1 (calls + 1) := by
  have h0 : ¬ r.status = 0 := by omega
  simp only [readLoop, if_neg h0, if_pos hr, hsome]

theorem readLoop_cons_none (env : Env) (r : ReadResult) (rest : List ReadResult)
    (hr : 0 < r.status) (s : LoopState) (calls : Nat)
    (hnone : storeRecord env s r.record = none) :
    readLoop env (r :: rest) s calls =
      { ret := -1
        exit := Exit.reallocFailed
        streamOpen := true
        records := none
        recordNumber := wrapInt (s.recordNumber + 1)
        recordArraySize := wrapInt (s.recordArraySize * 2)
        currentRecordCount := s.currentRecordCount
        readerCalls := calls + 1 } := by
  have h0 : ¬ r.status = 0 := by omega
  simp only [readLoop, if_neg h0, if_pos hr, hnone]

theorem readLoop_cons_neg (env : Env) (r : ReadResult) (rest : List ReadResult)
    (hr : r.status < 0) (s : LoopState) (calls : Nat) :
    readLoop env (r :: rest) s calls =
      { ret := -1
        exit := Exit.readerFailed
        streamOpen := true
        records := some s.records
        recordNumber := s.recordNumber
        recordArraySize := s.recordArraySize
        currentRecordCount := s.currentRecordCount
        readerCalls := calls + 1 } := by
  have h0 : ¬ r.status = 0 := by omega
  have h1 : ¬ 0 < r.status := by omega
  simp only [readLoop, if_neg h0, if_neg h1]

/-- The loop on a reader that gives the records `pos` and then end of stream:
it leaves at end of stream or at a refused `realloc`; at end of stream the
invariant holds for the records stored before together with `pos`; and it does
reach end of stream when at most `2^30` records are stored in all and every
request of at most `2^30` slots is granted. -/
theorem readLoop_records {env : Env} (hp : SanePlatform env) (tail : List ReadResult)
    (htail : ∀ e ∈ tail.head?, e.status = 0) :
    ∀ (pos : List ReadResult) (s : LoopState) (stored : List FASTArecord) (calls : Nat),
      Inv s stored → (∀ e ∈ pos, 0 < e.status) →
      ((readLoop env (pos ++ tail) s calls).exit = Exit.endOfStream ∨
        (readLoop env (pos ++ tail) s calls).exit = Exit.reallocFailed) ∧
      ((readLoop env (pos ++ tail) s calls).exit = Exit.endOfStream →
        ∃ sf, Inv sf (stored ++ pos.map (fun e => e.record)) ∧
          readLoop env (pos ++ tail) s calls = finishAtEof sf (calls + pos.length + 1)) ∧
      (stored.length + pos.length ≤ 1073741824 →
        (∀ b, b ≤ 1073741824 * env.recordBytes → env.reallocOk b = true) →
        (readLoop env (pos ++ tail) s calls).exit = Exit.endOfStream) := by
  intro pos
  induction pos with
  | nil =>
    intro s stored calls hinv _
    rw [List.nil_append, readLoop_eof_head env tail htail]
    refine ⟨Or.inl rfl, fun _ => ⟨s, ?_, rfl⟩, fun _ _ => rfl⟩
    simpa using hinv
  | cons r pos ih =>
    intro s stored calls hinv hpos
    have hr : 0 < r.status := hpos r (by simp)
    have hrest : ∀ e ∈ pos, 0 < e.status := fun e he => hpos e (by simp [he])
    rw [List.cons_append]
    rcases storeRecord_inv hp hinv r.record with ⟨hnone, -⟩ | ⟨s1, hsome, hinv1, -, -⟩
    · rw [readLoop_cons_none env r _ hr s calls hnone]
      refine ⟨Or.inr rfl, fun h => ?_, fun hlen hg => ?_⟩
      · exact Exit.noConfusion h
      · have hlen2 : stored.length + (pos.length + 1) ≤ 1073741824 := by
          simpa using hlen
        exact absurd hnone (storeRecord_granted hp hinv (by omega) hg r.record)
    · rw [readLoop_cons_some env r _ hr s s1 calls hsome]
      obtain ⟨h1, h2, h3⟩ := ih s1 (stored ++ [r.record]) (calls + 1) hinv1 hrest
      refine ⟨h1, fun h => ?_, fun hlen hg => ?_⟩
      · obtain ⟨sf, hsf, heq⟩ := h2 h
        refine ⟨sf, ?_, ?_⟩
        · simpa using hsf
        · rw [heq, List.length_cons]
          congr 1
          omega
      · apply h3 _ hg
        have hlen2 : stored.length + (pos.length + 1) ≤ 1073741824 := by
          simpa using hlen
        rw [List.length_append, List.length_singleton]
        omega

/-- The whole call on a reader that gives the records `pos` and then end of
stream. -/
theorem processFasta_records {env : Env} (hp : SanePlatform env) {pos tail : List ReadResult}
    (hreader : env.reader = pos ++ tail) (hpos : ∀ e ∈ pos, 0 < e.status)
    (htail : ∀ e ∈ tail.head?, e.status = 0) :
    ((processFasta env).exit = Exit.endOfStream →
      ∃ sf, Inv sf (pos.map (fun e => e.record)) ∧
        processFasta env = finishAtEof sf (pos.length + 1)) ∧
    (pos.length ≤ 1073741824 → env.fopenOk = true → env.mallocOk = true →
      (∀ b, b ≤ 1073741824 * env.recordBytes → env.reallocOk b = true) →
      (processFasta env).exit = Exit.endOfStream) := by
  obtain ⟨-, h2, h3⟩ :=
    readLoop_records hp tail htail pos (initialState env) [] 0 (inv_initialState hp) hpos
  constructor
  · intro h
    unfold processFasta at h ⊢
    cases ho : env.fopenOk
    · rw [ho] at h; exact Exit.noConfusion h
    · cases hm : env.mallocOk
      · rw [ho, hm] at h; exact Exit.noConfusion h
      · rw [ho, hm, hreader] at h
        simp only [if_true] at h
        obtain ⟨sf, hsf, heq⟩ := h2 h
        refine ⟨sf, by simpa using hsf, ?_⟩
        simp only [if_true, hreader, heq]
        congr 1
        omega
  · intro hlen ho hm hg
    unfold processFasta
    rw [ho, hm, hreader]
    simp only [if_true]
    exact h3 (by simpa using hlen) hg

theorem pow_two_minimal {k N : Nat} (htight : 2 ^ k = 1 ∨ 2 ^ k < 2 * N) (j : Nat)
    (hj : N ≤ 2 ^ j) : 2 ^ k ≤ 2 ^ j := by
  rcases htight with h | h
  · rw [h]; exact Nat.one_le_two_pow
  · have h2 : 2 ^ k < 2 ^ (j + 1) := by
      have : 2 ^ (j + 1) = 2 * 2 ^ j := by rw [pow_succ]; omega
      omega
    have hkj : k < j + 1 := (Nat.pow_lt_pow_iff_right (by decide)).mp h2
    exact Nat.pow_le_pow_right (by decide) (by omega)

/-- C1: when the reader gives `N` records and then end of stream (the loop is
left at the end-of-stream return), `currentRecordCount` is `N` and
`recordArraySize` is the smallest power of two that is at least `N`, which is 1
for `N = 0`. The loop does end so whenever `N ≤ 2^30`, the file opens and every
allocation of at most `2^30` slots is granted. -/
theorem processFasta_capacity_least_power_of_two (env : Env) (pos tail : List ReadResult)
    (hp : SanePlatform env) (hreader : env.reader = pos ++ tail)
    (hpos : ∀ e ∈ pos, 0 < e.status) (htail : ∀ e ∈ tail.head?, e.status = 0) :
    ((processFasta env).exit = Exit.endOfStream →
      (processFasta env).currentRecordCount = (pos.length : Int) ∧
      (∃ k : Nat, (processFasta env).recordArraySize = ((2 ^ k : Nat) : Int) ∧
        pos.length ≤ 2 ^ k ∧ ∀ j : Nat, pos.length ≤ 2 ^ j → 2 ^ k ≤ 2 ^ j) ∧
      (pos.length = 0 → (processFasta env).recordArraySize = 1)) ∧
    (pos.length ≤ 1073741824 → env.fopenOk = true → env.mallocOk = true →
      (∀ b, b ≤ 1073741824 * env.recordBytes → env.reallocOk b = true) →
      (processFasta env).exit = Exit.endOfStream) := by
  obtain ⟨h1, h2⟩ := processFasta_records hp hreader hpos htail
  refine ⟨fun h => ?_, h2⟩
  obtain ⟨sf, ⟨⟨k, -, hsize⟩, hcount, -, hle, htight, -, -⟩, heq⟩ := h1 h
  rw [List.length_map] at hcount hle htight
  rw [heq]
  have htightN : 2 ^ k = 1 ∨ 2 ^ k < 2 * pos.length := by omega
  refine ⟨hcount, ⟨k, hsize, by omega, pow_two_minimal htightN⟩, fun h0 => ?_⟩
  show sf.recordArraySize = 1
  omega

theorem slot_of_inv {s : LoopState} {stored : List FASTArecord} (hinv : Inv s stored)
    (i : Nat) (hi : i < stored.length) : s.records[i]? = some (some (stored.get ⟨i, hi⟩)) := by
  rw [← List.getElem?_take_of_lt hi, hinv.slots, List.getElem?_map,
    List.getElem?_eq_getElem hi]
  rfl

theorem loopStates_inv {env : Env} (hp : SanePlatform env) :
    ∀ (script : List ReadResult) (s0 : LoopState) (stored0 : List FASTArecord),
      Inv s0 stored0 → ∀ s ∈ loopStates env script s0, ∃ stored, Inv s stored := by
  intro script
  induction script with
  | nil =>
    intro s0 stored0 h0 s hs
    simp only [loopStates, List.mem_singleton] at hs
    exact ⟨stored0, hs ▸ h0⟩
  | cons r rest ih =>
    intro s0 stored0 h0 s hs
    unfold loopStates at hs
    split at hs
    · simp only [List.mem_singleton] at hs
      exact ⟨stored0, hs ▸ h0⟩
    · split at hs
      · rcases storeRecord_inv hp h0 r.record with ⟨hnone, -⟩ | ⟨s1, hsome, hinv1, -, -⟩
        · simp only [hnone, List.mem_singleton] at hs
          exact ⟨stored0, hs ▸ h0⟩
        · simp only [hsome, List.mem_cons] at hs
          rcases hs with hs | hs
          · exact ⟨stored0, hs ▸ h0⟩
          · exact ih s1 _ hinv1 s hs
      · simp only [List.mem_singleton] at hs
        exact ⟨stored0, hs ▸ h0⟩

theorem reachedStates_inv {env : Env} (hp : SanePlatform env) (s : LoopState)
    (hs : s ∈ reachedStates env) : ∃ stored, Inv s stored := by
  unfold reachedStates at hs
  split at hs
  · split at hs
    · exact loopStates_inv hp _ _ [] (inv_initialState hp) s hs
    · simp at hs
  · simp at hs

/-- C2: in every state the read loop goes through, `currentRecordCount` is
between 0 and `recordArraySize`, which is the number of slots of the block; the
loop starts from capacity 1 with no record; and an append from such a state
either stops at a refused `realloc` of a full array (nothing is written), or
stores the record: then `recordArraySize` is doubled exactly when
`currentRecordCount = recordArraySize` and is unchanged otherwise, and the slot
written, `currentRecordCount`, is below the new capacity and holds the record. -/
theorem readLoop_count_le_capacity (env : Env) (hp : SanePlatform env) (s : LoopState)
    (hs : s ∈ reachedStates env) :
    0 ≤ s.currentRecordCount ∧ s.currentRecordCount ≤ s.recordArraySize ∧
    (s.records.length : Int) = s.recordArraySize ∧
    (∀ s0 ∈ (reachedStates env).head?, s0.recordArraySize = 1 ∧ s0.currentRecordCount = 0) ∧
    ∀ r : FASTArecord,
      (storeRecord env s r = none ∧ s.currentRecordCount = s.recordArraySize) ∨
      ∃ s1, storeRecord env s r = some s1 ∧
        (s.currentRecordCount = s.recordArraySize →
          s1.recordArraySize = 2 * s.recordArraySize) ∧
        (s.currentRecordCount ≠ s.recordArraySize →
          s1.recordArraySize = s.recordArraySize) ∧
        s.currentRecordCount < s1.recordArraySize ∧
        (s1.records.length : Int) = s1.recordArraySize ∧
        s1.records[s.currentRecordCount.toNat]? = some (some r) := by
  obtain ⟨stored, hinv⟩ := reachedStates_inv hp s hs
  have hcount := hinv.count
  have hle := hinv.le
  refine ⟨by omega, by omega, hinv.len, ?_, fun r => ?_⟩
  · intro s0 h0
    unfold reachedStates at h0
    split at h0
    · split at h0
      · have hinit : s0 = initialState env := by
          cases hr : env.reader with
          | nil =>
            rw [hr] at h0
            simp only [loopStates, List.head?_cons, Option.mem_def, Option.some.injEq] at h0
            exact h0.symm
          | cons e rest =>
            rw [hr] at h0
            unfold loopStates at h0
            split at h0
            · simp only [List.head?_cons, Option.mem_def, Option.some.injEq] at h0
              exact h0.symm
            · split at h0
              · split at h0
                · simp only [List.head?_cons, Option.mem_def, Option.some.injEq] at h0
                  exact h0.symm
                · simp only [List.head?_cons, Option.mem_def, Option.some.injEq] at h0
                  exact h0.symm
              · simp only [List.head?_cons, Option.mem_def, Option.some.injEq] at h0
                exact h0.symm
        rw [hinit]
        exact ⟨rfl, rfl⟩
      · simp at h0
    · simp at h0
  · rcases storeRecord_inv hp hinv r with hnone | ⟨s1, hsome, hinv1, hd, hu⟩
    · exact Or.inl hnone
    · refine Or.inr ⟨s1, hsome, hd, hu, ?_, hinv1.len, ?_⟩
      · have := hinv1.le
        rw [List.length_append, List.length_singleton] at this
        omega
      · have hslot := slot_of_inv hinv1 stored.length (by simp)
        rw [hcount, Int.toNat_ofNat, hslot]
        simp

/-- The states of `loopStates` are those of `readLoop`: one per reader call, and
the call returns with the local variables of the last one (the capacity apart,
which a refused `realloc` has already doubled). -/
theorem readLoop_loopStates (env : Env) :
    ∀ (script : List ReadResult) (s : LoopState) (calls : Nat),
      (readLoop env script s calls).readerCalls = calls + (loopStates env script s).length ∧
      ∃ sl ∈ (loopStates env script s).getLast?,
        (readLoop env script s calls).currentRecordCount = sl.currentRecordCount := by
  intro script
  induction script with
  | nil => intro s calls; exact ⟨rfl, s, rfl, rfl⟩
  | cons r rest ih =>
    intro s calls
    unfold readLoop loopStates
    split
    · exact ⟨rfl, s, rfl, rfl⟩
    · split
      · cases hst : storeRecord env s r.record with
        | none => exact ⟨rfl, s, rfl, rfl⟩
        | some s1 =>
          obtain ⟨h1, sl, hsl, h2⟩ := ih s1 (calls + 1)
          refine ⟨?_, sl, ?_, h2⟩
          · show (readLoop env rest s1 (calls + 1)).readerCalls = _
            rw [h1, List.length_cons]
            omega
          · show sl ∈ (s :: loopStates env rest s1).getLast?
            cases hl : loopStates env rest s1 with
            | nil => rw [hl] at hsl; simp at hsl
            | cons a t =>
              rw [hl] at hsl
              rw [List.getLast?_cons_cons]
              exact hsl
      · exact ⟨rfl, s, rfl, rfl⟩

/-- C3: when the reader gives `N` records (positive status) and then end of
stream, `processFasta` returns `N` and slot `i` of the array holds the `i`-th
record read, for every `i < N`; an append from a state of the loop leaves the
slots below `currentRecordCount` as they were, growth included. The call does
end at end of stream whenever `N ≤ 2^30`, the file opens and every allocation
of at most `2^30` slots is granted. -/
theorem processFasta_stores_in_order (env : Env) (pos tail : List ReadResult)
    (hp : SanePlatform env) (hreader : env.reader = pos ++ tail)
    (hpos : ∀ e ∈ pos, 0 < e.status) (htail : ∀ e ∈ tail.head?, e.status = 0) :
    ((processFasta env).exit = Exit.endOfStream →
      (processFasta env).ret = (pos.length : Int) ∧
      ∃ slots, (processFasta env).records = some slots ∧
        ∀ (i : Nat) (hi : i < pos.length),
          slots[i]? = some (some (pos.get ⟨i, hi⟩).record)) ∧
    (∀ s ∈ reachedStates env, ∀ (r : FASTArecord) (s1 : LoopState),
      storeRecord env s r = some s1 →
      ∀ i : Nat, (i : Int) < s.currentRecordCount → s1.records[i]? = s.records[i]?) ∧
    (pos.length ≤ 1073741824 → env.fopenOk = true → env.mallocOk = true →
      (∀ b, b ≤ 1073741824 * env.recordBytes → env.reallocOk b = true) →
      (processFasta env).exit = Exit.endOfStream) := by
  obtain ⟨h1, h2⟩ := processFasta_records hp hreader hpos htail
  refine ⟨fun h => ?_, ?_, h2⟩
  · obtain ⟨sf, hinv, heq⟩ := h1 h
    have hcount := hinv.count
    rw [List.length_map] at hcount
    rw [heq]
    refine ⟨hcount, sf.records, rfl, fun i hi => ?_⟩
    rw [slot_of_inv hinv i (by rw [List.length_map]; exact hi)]
    simp
  · intro s hs r s1 hsome i hi
    obtain ⟨stored, hinv⟩ := reachedStates_inv hp s hs
    rcases storeRecord_inv hp hinv r with ⟨hnone, -⟩ | ⟨s2, hsome2, hinv1, -, -⟩
    · rw [hnone] at hsome; exact Option.noConfusion hsome
    · rw [hsome] at hsome2
      cases hsome2
      have hcount := hinv.count
      have hi1 : i < stored.length := by omega
      rw [slot_of_inv hinv i hi1,
        slot_of_inv hinv1 i (by rw [List.length_append]; omega)]
      simp only [List.get_eq_getElem]
      rw [List.getElem_append_left hi1]

/-- C10: after a run that stored `N ≥ 1` records and ended at end of stream,
`N ≤ recordArraySize < 2 * N`, so the waste fraction
`(recordArraySize - recordNumber) / recordArraySize` printed at line 82 is,
in exact arithmetic, below one half (the percentage below 50); for `N = 0` the
capacity is 1 and the fraction is 1 (100 percent). Such a run exists whenever
`N ≤ 2^30`, the file opens and every allocation of at most `2^30` slots is
granted. -/
theorem processFasta_waste_below_half (env : Env) (pos tail : List ReadResult)
    (hp : SanePlatform env) (hreader : env.reader = pos ++ tail)
    (hpos : ∀ e ∈ pos, 0 < e.status) (htail : ∀ e ∈ tail.head?, e.status = 0) :
    ((processFasta env).exit = Exit.endOfStream →
      (processFasta env).recordNumber = (pos.length : Int) ∧
      (1 ≤ pos.length →
        (pos.length : Int) ≤ (processFasta env).recordArraySize ∧
        (processFasta env).recordArraySize < 2 * (pos.length : Int) ∧
        wasteFraction (processFasta env) < 1 / 2 ∧
        wastePercent (processFasta env) < 50) ∧
      (pos.length = 0 →
        (processFasta env).recordArraySize = 1 ∧
        wasteFraction (processFasta env) = 1 ∧
        wastePercent (processFasta env) = 100)) ∧
    (pos.length ≤ 1073741824 → env.fopenOk = true → env.mallocOk = true →
      (∀ b, b ≤ 1073741824 * env.recordBytes → env.reallocOk b = true) →
      (processFasta env).exit = Exit.endOfStream) := by
  obtain ⟨h1, h2⟩ := processFasta_records hp hreader hpos htail
  refine ⟨fun h => ?_, h2⟩
  obtain ⟨sf, ⟨⟨k, hk, hsize⟩, -, hnumber, hle, htight, -, -⟩, heq⟩ := h1 h
  rw [List.length_map] at hnumber hle htight
  have hP := pow_two_le_of_le hk
  rw [heq]
  have hwrap : wrapInt (sf.recordArraySize - sf.recordNumber) =
      sf.recordArraySize - sf.recordNumber := wrapInt_of_range (by omega) (by omega)
  have hfrac : wasteFraction (finishAtEof sf (pos.length + 1)) =
      ((sf.recordArraySize - sf.recordNumber : Int) : ℚ) / (sf.recordArraySize : ℚ) := by
    show ((wrapInt (sf.recordArraySize - sf.recordNumber) : Int) : ℚ) / _ = _
    rw [hwrap]
    rfl
  refine ⟨hnumber, fun hN => ?_, fun h0 => ?_⟩
  · have hlt : sf.recordArraySize < 2 * (pos.length : Int) := by omega
    have hpos' : (0 : ℚ) < (sf.recordArraySize : ℚ) := by
      have : (0 : Int) < sf.recordArraySize := by omega
      exact_mod_cast this
    have hhalf : wasteFraction (finishAtEof sf (pos.length + 1)) < 1 / 2 := by
      rw [hfrac, div_lt_iff₀ hpos']
      have h3 : 2 * (sf.recordArraySize - sf.recordNumber) < sf.recordArraySize := by omega
      have h4 : (2 : ℚ) * ((sf.recordArraySize - sf.recordNumber : Int) : ℚ)
          < (sf.recordArraySize : ℚ) := by exact_mod_cast h3
      linarith
    refine ⟨hle, hlt, hhalf, ?_⟩
    unfold wastePercent
    linarith
  · have hs1 : sf.recordArraySize = 1 := by omega
    have hone : wasteFraction (finishAtEof sf (pos.length + 1)) = 1 := by
      rw [hfrac, hs1, hnumber, h0]
      norm_num
    refine ⟨hs1, hone, ?_⟩
    unfold wastePercent
    rw [hone]
    norm_num

theorem storeRecord_none {env : Env} {s : LoopState} {r : FASTArecord}
    (h : storeRecord env s r = none) :
    env.reallocOk (allocBytes (wrapInt (s.recordArraySize * 2)) env.recordBytes) = false := by
  unfold storeRecord at h
  split at h
  · split at h
    · exact Option.noConfusion h
    · rename_i hg
      simpa using hg
  · exact Option.noConfusion h

/-- The loop on any reader, from a state satisfying the invariant after `c`
reader calls: it makes `j + 1` further calls, of which the first `j` give a
record, and it leaves at end of stream with `j` more records stored, or at the
first negative status, or at the first refused `realloc`. -/
theorem readLoop_spec {env : Env} (hp : SanePlatform env) :
    ∀ (script : List ReadResult) (s : LoopState) (stored : List FASTArecord) (c : Nat),
      Inv s stored →
      ∃ j : Nat,
        (readLoop env script s c).readerCalls = c + j + 1 ∧
        (∀ i, i < j → ∃ e, script[i]? = some e ∧ 0 < e.status) ∧
        (((readLoop env script s c).exit = Exit.endOfStream ∧
            (∀ e ∈ script[j]?, e.status = 0) ∧
            (readLoop env script s c).ret = (stored.length : Int) + j ∧
            (readLoop env script s c).currentRecordCount = (readLoop env script s c).ret ∧
            (readLoop env script s c).streamOpen = false) ∨
          ((readLoop env script s c).exit = Exit.readerFailed ∧
            (∃ e, script[j]? = some e ∧ e.status < 0) ∧
            (readLoop env script s c).ret = -1 ∧
            (readLoop env script s c).streamOpen = true) ∨
          ((readLoop env script s c).exit = Exit.reallocFailed ∧
            (∃ e, script[j]? = some e ∧ 0 < e.status) ∧
            (readLoop env script s c).ret = -1 ∧
            env.reallocOk
              (allocBytes (readLoop env script s c).recordArraySize env.recordBytes) = false)) := by
  intro script
  induction script with
  | nil =>
    intro s stored c hinv
    refine ⟨0, rfl, fun i hi => absurd hi (Nat.not_lt_zero i), Or.inl ⟨rfl, ?_, ?_, rfl, rfl⟩⟩
    · intro e he; simp at he
    · show s.currentRecordCount = _
      rw [hinv.count]; simp
  | cons r rest ih =>
    intro s stored c hinv
    rcases Int.lt_trichotomy r.status 0 with hneg | hzero | hpos
    · rw [readLoop_cons_neg env r rest hneg]
      exact ⟨0, rfl, fun i hi => absurd hi (Nat.not_lt_zero i),
        Or.inr (Or.inl ⟨rfl, ⟨r, by simp, hneg⟩, rfl, rfl⟩)⟩
    · rw [readLoop_eof_head env (r :: rest) (by intro e he; simp at he; rw [← he]; exact hzero)]
      refine ⟨0, rfl, fun i hi => absurd hi (Nat.not_lt_zero i), Or.inl ⟨rfl, ?_, ?_, rfl, rfl⟩⟩
      · intro e he; simp at he; rw [← he]; exact hzero
      · show s.currentRecordCount = _
        rw [hinv.count]; simp
    · rcases storeRecord_inv hp hinv r.record with ⟨hnone, -⟩ | ⟨s1, hsome, hinv1, -, -⟩
      · rw [readLoop_cons_none env r rest hpos s c hnone]
        exact ⟨0, rfl, fun i hi => absurd hi (Nat.not_lt_zero i),
          Or.inr (Or.inr ⟨rfl, ⟨r, by simp, hpos⟩, rfl, storeRecord_none hnone⟩)⟩
      · rw [readLoop_cons_some env r rest hpos s s1 c hsome]
        obtain ⟨j, hcalls, hbefore, hexit⟩ := ih s1 (stored ++ [r.record]) (c + 1) hinv1
        refine ⟨j + 1, by rw [hcalls]; omega, ?_, ?_⟩
        · intro i hi
          cases i with
          | zero => exact ⟨r, by simp, hpos⟩
          | succ i => simpa using hbefore i (by omega)
        · rcases hexit with ⟨h1, h2, h3, h4, h5⟩ | ⟨h1, h2, h3, h4⟩ | ⟨h1, h2, h3, h4⟩
          · refine Or.inl ⟨h1, by simpa using h2, ?_, h4, h5⟩
            rw [h3, List.length_append, List.length_singleton]
            push_cast
            omega
          · exact Or.inr (Or.inl ⟨h1, by simpa using h2, h3, h4⟩)
          · exact Or.inr (Or.inr ⟨h1, by simpa using h2, h3, h4⟩)

/-- The exits of `processFasta` and what each of them tells. -/
theorem processFasta_exits (env : Env) (hp : SanePlatform env) :
    ((processFasta env).ret < 0 ↔ (processFasta env).exit ≠ Exit.endOfStream) ∧
    ((processFasta env).exit ≠ Exit.endOfStream → (processFasta env).ret = -1) ∧
    ((processFasta env).exit = Exit.fopenFailed ↔ env.fopenOk = false) ∧
    ((processFasta env).exit = Exit.mallocFailed ↔
      (env.fopenOk = true ∧ env.mallocOk = false)) ∧
    ((processFasta env).exit = Exit.fopenFailed ∨ (processFasta env).exit = Exit.mallocFailed →
      (processFasta env).readerCalls = 0) ∧
    (∀ i, i + 1 < (processFasta env).readerCalls →
      ∃ e, env.reader[i]? = some e ∧ 0 < e.status) ∧
    ((processFasta env).exit = Exit.readerFailed →
      ∃ e, env.reader[(processFasta env).readerCalls - 1]? = some e ∧ e.status < 0) ∧
    ((processFasta env).exit = Exit.reallocFailed →
      (∃ e, env.reader[(processFasta env).readerCalls - 1]? = some e ∧ 0 < e.status) ∧
      env.reallocOk (allocBytes (processFasta env).recordArraySize env.recordBytes) = false) ∧
    ((processFasta env).exit = Exit.endOfStream →
      (∀ e ∈ env.reader[(processFasta env).readerCalls - 1]?, e.status = 0) ∧
      (processFasta env).ret = (processFasta env).currentRecordCount ∧
      0 ≤ (processFasta env).ret ∧
      (processFasta env).ret + 1 = ((processFasta env).readerCalls : Int)) := by
  unfold processFasta
  cases ho : env.fopenOk
  · simp
  · cases hm : env.mallocOk
    · simp
    · simp only [if_true]
      obtain ⟨j, hcalls, hbefore, hexit⟩ :=
        readLoop_spec hp env.reader (initialState env) [] 0 (inv_initialState hp)
      have hj : (readLoop env env.reader (initialState env) 0).readerCalls - 1 = j := by
        rw [hcalls]; omega
      rw [hj]
      rcases hexit with ⟨h1, h2, h3, h4, -⟩ | ⟨h1, h2, h3, -⟩ | ⟨h1, h2, h3, h4⟩
      · have h3j : (readLoop env env.reader (initialState env) 0).ret = (j : Int) := by
          simpa using h3
        rw [h1, h4, h3j, hcalls]
        refine ⟨by constructor <;> intro h <;> first | omega | exact absurd rfl h,
          fun h => absurd rfl h, by simp, by simp, by simp, ?_, by simp, by simp, ?_⟩
        · intro i hi; exact hbefore i (by omega)
        · intro _
          refine ⟨h2, rfl, by omega, by push_cast; omega⟩
      · rw [h1, h3, hcalls]
        refine ⟨by simp, by simp, by simp, by simp, by simp, ?_, fun _ => h2, by simp, by simp⟩
        intro i hi; exact hbefore i (by omega)
      · rw [h1, h3, hcalls]
        refine ⟨by simp, by simp, by simp, by simp, by simp, ?_, by simp,
          fun _ => ⟨h2, h4⟩, by simp⟩
        intro i hi; exact hbefore i (by omega)

/-- The status of `processFasta` is negative exactly at a failure exit, and at
end of stream it is the record count. -/
theorem processFasta_ret_sign {env : Env} (hp : SanePlatform env) :
    ((processFasta env).ret < 0 ↔ (processFasta env).exit ≠ Exit.endOfStream) ∧
    ((processFasta env).exit = Exit.endOfStream →
      (processFasta env).ret = (processFasta env).currentRecordCount) := by
  unfold processFasta
  cases ho : env.fopenOk
  · simp
  · cases hm : env.mallocOk
    · simp
    · simp only [if_true]
      obtain ⟨j, -, -, hexit⟩ :=
        readLoop_spec hp env.reader (initialState env) [] 0 (inv_initialState hp)
      rcases hexit with ⟨h1, -, h3, h4, -⟩ | ⟨h1, -, h3, -⟩ | ⟨h1, -, h3, -⟩
      · have h3j : (readLoop env env.reader (initialState env) 0).ret = (j : Int) := by
          simpa using h3
        rw [h1, h4, h3j]
        refine ⟨?_, fun _ => rfl⟩
        constructor
        · intro h; omega
        · intro h; exact absurd rfl h
      · rw [h1, h3]; simp
      · rw [h1, h3]; simp

theorem storeRecord_refused {env : Env} {s : LoopState} (h : growthRefused env s)
    (r : FASTArecord) : storeRecord env s r = none := by
  obtain ⟨hfull, hno⟩ := h
  simp only [storeRecord, if_pos hfull, hno]
  rfl

theorem growthRefused_of_none {env : Env} {s : LoopState} {r : FASTArecord}
    (h : storeRecord env s r = none) : growthRefused env s := by
  refine ⟨?_, storeRecord_none h⟩
  unfold storeRecord at h
  split at h
  · assumption
  · exact Option.noConfusion h

theorem loopStates_head (env : Env) (script : List ReadResult) (s : LoopState) :
    (loopStates env script s)[0]? = some s := by
  cases script with
  | nil => rfl
  | cons r rest =>
    unfold loopStates
    split
    · rfl
    · split
      · split <;> simp
      · rfl

theorem loopStates_succ {env : Env} {r : ReadResult} {rest : List ReadResult}
    {s si : LoopState} {i : Nat}
    (h : (loopStates env (r :: rest) s)[i + 1]? = some si) :
    0 < r.status ∧ ∃ s1, storeRecord env s r.record = some s1 ∧
      (loopStates env rest s1)[i]? = some si := by
  unfold loopStates at h
  split at h
  · simp at h
  · split at h
    · rename_i hpos
      cases hst : storeRecord env s r.record with
      | none => rw [hst] at h; simp at h
      | some s1 =>
        rw [hst] at h
        exact ⟨hpos, s1, rfl, by simpa using h⟩
    · simp at h

/-- A failure met in iteration `i` of the loop ends the call there: after
`i + 1` reader calls it returns -1, through the reader-failure exit for a
negative status and through the `realloc`-failure exit for a refused growth. -/
theorem readLoop_fails_at (env : Env) :
    ∀ (script : List ReadResult) (s : LoopState) (c i : Nat) (si : LoopState) (e : ReadResult),
      (loopStates env script s)[i]? = some si → script[i]? = some e →
      (e.status < 0 →
        (readLoop env script s c).exit = Exit.readerFailed ∧
        (readLoop env script s c).ret = -1 ∧
        (readLoop env script s c).readerCalls = c + i + 1) ∧
      (0 < e.status → growthRefused env si →
        (readLoop env script s c).exit = Exit.reallocFailed ∧
        (readLoop env script s c).ret = -1 ∧
        (readLoop env script s c).readerCalls = c + i + 1) := by
  intro script
  induction script with
  | nil => intro s c i si e _ he; simp at he
  | cons r rest ih =>
    intro s c i si e hsi he
    cases i with
    | zero =>
      have hs : si = s := by
        have := loopStates_head env (r :: rest) s
        rw [this] at hsi
        exact (Option.some.inj hsi).symm
      have hr : e = r := by simpa using he.symm
      subst hs hr
      constructor
      · intro hneg
        rw [readLoop_cons_neg env e rest hneg]
        exact ⟨rfl, rfl, rfl⟩
      · intro hpos href
        rw [readLoop_cons_none env e rest hpos si c (storeRecord_refused href e.record)]
        exact ⟨rfl, rfl, rfl⟩
    | succ i =>
      obtain ⟨hpos, s1, hst, hsi1⟩ := loopStates_succ hsi
      have he1 : rest[i]? = some e := by simpa using he
      rw [readLoop_cons_some env r rest hpos s s1 c hst]
      obtain ⟨h1, h2⟩ := ih s1 (c + 1) i si e hsi1 he1
      constructor
      · intro hneg
        obtain ⟨a, b, d⟩ := h1 hneg
        exact ⟨a, b, by rw [d]; omega⟩
      · intro hp href
        obtain ⟨a, b, d⟩ := h2 hp href
        exact ⟨a, b, by rw [d]; omega⟩

/-- A failure exit of the loop has its cause in the last iteration run. -/
theorem readLoop_cause (env : Env) :
    ∀ (script : List ReadResult) (s : LoopState) (c : Nat),
      ∃ (j : Nat) (sj : LoopState),
        (loopStates env script s)[j]? = some sj ∧
        ((readLoop env script s c).exit = Exit.endOfStream ∨
          (readLoop env script s c).exit = Exit.readerFailed ∨
          (readLoop env script s c).exit = Exit.reallocFailed) ∧
        ((readLoop env script s c).exit = Exit.readerFailed →
          ∃ e, script[j]? = some e ∧ e.status < 0) ∧
        ((readLoop env script s c).exit = Exit.reallocFailed →
          ∃ e, script[j]? = some e ∧ 0 < e.status ∧ growthRefused env sj) := by
  intro script
  induction script with
  | nil =>
    intro s c
    exact ⟨0, s, rfl, Or.inl rfl, fun h => Exit.noConfusion h, fun h => Exit.noConfusion h⟩
  | cons r rest ih =>
    intro s c
    rcases Int.lt_trichotomy r.status 0 with hneg | hzero | hpos
    · rw [readLoop_cons_neg env r rest hneg]
      exact ⟨0, s, loopStates_head env _ s, Or.inr (Or.inl rfl),
        fun _ => ⟨r, by simp, hneg⟩, fun h => Exit.noConfusion h⟩
    · rw [readLoop_eof_head env (r :: rest) (by intro e he; simp at he; rw [← he]; exact hzero)]
      exact ⟨0, s, loopStates_head env _ s, Or.inl rfl, fun h => Exit.noConfusion h,
        fun h => Exit.noConfusion h⟩
    · cases hst : storeRecord env s r.record with
      | none =>
        rw [readLoop_cons_none env r rest hpos s c hst]
        exact ⟨0, s, loopStates_head env _ s, Or.inr (Or.inr rfl),
          fun h => Exit.noConfusion h,
          fun _ => ⟨r, by simp, hpos, growthRefused_of_none hst⟩⟩
      | some s1 =>
        rw [readLoop_cons_some env r rest hpos s s1 c hst]
        obtain ⟨j, sj, hj, h0x, h1, h2⟩ := ih s1 (c + 1)
        have h0 : ¬ r.status = 0 := by omega
        refine ⟨j + 1, sj, ?_, h0x, ?_, ?_⟩
        · simp only [loopStates, if_neg h0, if_pos hpos, hst]
          simpa using hj
        · intro h; simpa using h1 h
        · intro h; simpa using h2 h

/-- C5: `processFasta` returns a negative status if and only if a failure
occurs: the file cannot be opened, the initial allocation fails, the reader
returns a negative status in some iteration, or a record meets a full array
whose growth `realloc` refuses. The status is then -1 and the call leaves
through the exit of that failure, at once: a failure in iteration `i` ends the
call after `i + 1` reader calls, a failed `fopen` or `malloc` after none, and
every reader call but the last gave a record. In every other case the call
leaves at end of stream and returns `currentRecordCount`, the number of records
read and stored, which is not negative. -/
theorem processFasta_negative_iff_failure (env : Env) (hp : SanePlatform env) :
    ((processFasta env).ret < 0 ↔ failureOccurs env) ∧
    (∀ (i : Nat) (s : LoopState) (e : ReadResult),
      (reachedStates env)[i]? = some s → env.reader[i]? = some e →
      (e.status < 0 →
        (processFasta env).exit = Exit.readerFailed ∧ (processFasta env).ret = -1 ∧
        (processFasta env).readerCalls = i + 1) ∧
      (0 < e.status → growthRefused env s →
        (processFasta env).exit = Exit.reallocFailed ∧ (processFasta env).ret = -1 ∧
        (processFasta env).readerCalls = i + 1)) ∧
    ((processFasta env).ret < 0 ↔ (processFasta env).exit ≠ Exit.endOfStream) ∧
    ((processFasta env).exit ≠ Exit.endOfStream → (processFasta env).ret = -1) ∧
    ((processFasta env).exit = Exit.fopenFailed ↔ env.fopenOk = false) ∧
    ((processFasta env).exit = Exit.mallocFailed ↔
      (env.fopenOk = true ∧ env.mallocOk = false)) ∧
    ((processFasta env).exit = Exit.fopenFailed ∨ (processFasta env).exit = Exit.mallocFailed →
      (processFasta env).readerCalls = 0) ∧
    (∀ i, i + 1 < (processFasta env).readerCalls →
      ∃ e, env.reader[i]? = some e ∧ 0 < e.status) ∧
    ((processFasta env).exit = Exit.readerFailed →
      ∃ e, env.reader[(processFasta env).readerCalls - 1]? = some e ∧ e.status < 0) ∧
    ((processFasta env).exit = Exit.reallocFailed →
      (∃ e, env.reader[(processFasta env).readerCalls - 1]? = some e ∧ 0 < e.status) ∧
      env.reallocOk (allocBytes (processFasta env).recordArraySize env.recordBytes) = false) ∧
    ((processFasta env).exit = Exit.endOfStream →
      (∀ e ∈ env.reader[(processFasta env).readerCalls - 1]?, e.status = 0) ∧
      (processFasta env).ret = (processFasta env).currentRecordCount ∧
      0 ≤ (processFasta env).ret ∧
      (processFasta env).ret + 1 = ((processFasta env).readerCalls : Int)) := by
  have hexits := processFasta_exits env hp
  have hat : ∀ (i : Nat) (s : LoopState) (e : ReadResult),
      (reachedStates env)[i]? = some s → env.reader[i]? = some e →
      (e.status < 0 →
        (processFasta env).exit = Exit.readerFailed ∧ (processFasta env).ret = -1 ∧
        (processFasta env).readerCalls = i + 1) ∧
      (0 < e.status → growthRefused env s →
        (processFasta env).exit = Exit.reallocFailed ∧ (processFasta env).ret = -1 ∧
        (processFasta env).readerCalls = i + 1) := by
    intro i s e hs he
    unfold reachedStates at hs
    unfold processFasta
    cases ho : env.fopenOk
    · rw [ho] at hs; simp at hs
    · cases hm : env.mallocOk
      · rw [ho, hm] at hs; simp at hs
      · rw [ho, hm] at hs
        simp only [if_true] at hs ⊢
        have h := readLoop_fails_at env env.reader (initialState env) 0 i s e hs he
        simpa using h
  refine ⟨?_, hat, hexits⟩
  obtain ⟨hsign, hminus, hfo, hma, -, -, hrf, -, -⟩ := hexits
  constructor
  · intro hneg
    have hne := hsign.mp hneg
    cases ho : env.fopenOk
    · exact Or.inl ho
    · cases hm : env.mallocOk
      · exact Or.inr (Or.inl ⟨ho, hm⟩)
      · right; right
        have hproc : processFasta env = readLoop env env.reader (initialState env) 0 := by
          unfold processFasta
          rw [ho, hm]
          rfl
        have hreach : reachedStates env = loopStates env env.reader (initialState env) := by
          unfold reachedStates
          rw [ho, hm]
          rfl
        obtain ⟨j, sj, hj, hcases, h1, h2⟩ :=
          readLoop_cause env env.reader (initialState env) 0
        rw [hreach]
        rw [hproc] at hne
        rcases hcases with he | he | he
        · exact absurd he hne
        · obtain ⟨e, hej, hn⟩ := h1 he
          exact ⟨j, sj, e, hj, hej, Or.inl hn⟩
        · obtain ⟨e, hej, hpos, href⟩ := h2 he
          exact ⟨j, sj, e, hj, hej, Or.inr ⟨hpos, href⟩⟩
  · rintro (ho | ⟨ho, hm⟩ | ⟨i, s, e, hs, he, hcause⟩)
    · have := hminus (by rw [hfo.mpr ho]; decide)
      omega
    · have := hminus (by rw [hma.mpr ⟨ho, hm⟩]; decide)
      omega
    · rcases hcause with hn | ⟨hpos, href⟩
      · have := ((hat i s e hs he).1 hn).2.1
        omega
      · have := ((hat i s e hs he).2 hpos href).2.1
        omega

/-- The limit set by the 32-bit `recordArraySize`: a reader that gives more
than `2^30` records never gets to report end of stream. The doubling of a full
array of `2^30` slots wraps, the request is refused, and the call leaves
through the `realloc` failure (when it reached the loop at all). -/
theorem processFasta_beyond_int_capacity {env : Env} (hp : SanePlatform env)
    {pos tail : List ReadResult} (hreader : env.reader = pos ++ tail)
    (hpos : ∀ e ∈ pos, 0 < e.status) (htail : ∀ e ∈ tail.head?, e.status = 0)
    (hmany : 1073741824 < pos.length) :
    (processFasta env).exit ≠ Exit.endOfStream ∧ (processFasta env).ret = -1 := by
  have hne : (processFasta env).exit ≠ Exit.endOfStream := by
    intro h
    obtain ⟨sf, ⟨⟨k, hk, hsize⟩, -, -, hle, -, -, -⟩, -⟩ :=
      (processFasta_records hp hreader hpos htail).1 h
    rw [List.length_map] at hle
    have hP := pow_two_le_of_le hk
    omega
  refine ⟨hne, ?_⟩
  unfold processFasta at hne ⊢
  cases ho : env.fopenOk
  · rfl
  · cases hm : env.mallocOk
    · rfl
    · rw [ho, hm] at hne
      simp only [if_true] at hne ⊢
      obtain ⟨j, -, -, hexit⟩ :=
        readLoop_spec hp env.reader (initialState env) [] 0 (inv_initialState hp)
      rcases hexit with ⟨h1, -⟩ | ⟨-, -, h3, -⟩ | ⟨-, -, h3, -⟩
      · exact absurd h1 hne
      · exact h3
      · exact h3

/-- The repetition loop stops at the first repetition whose status is negative. -/
theorem repeatLoop_fails (w : World) (filename : String) :
    ∀ (n k : Nat) (status : Int) (c : Nat) (freed : List Block), k < n →
      (∀ j, j < k → 0 ≤ (processFasta (w.env filename (c + j))).ret) →
      (processFasta (w.env filename (c + k))).ret < 0 →
      (repeatLoop w filename n status c freed).ret = -1 ∧
      (repeatLoop w filename n status c freed).calls = c + k + 1 := by
  intro n
  induction n with
  | zero => intro k _ _ _ hk; exact absurd hk (Nat.not_lt_zero k)
  | succ n ih =>
    intro k status c freed hk hbefore hfail
    cases k with
    | zero =>
      have hf : (processFasta (w.env filename c)).ret < 0 := by simpa using hfail
      simp [repeatLoop, hf]
    | succ k =>
      have h0 : ¬ (processFasta (w.env filename c)).ret < 0 := by
        have := hbefore 0 (by omega)
        simp only [Nat.add_zero] at this
        omega
      have hb : ∀ j, j < k → 0 ≤ (processFasta (w.env filename (c + 1 + j))).ret := by
        intro j hj
        have := hbefore (j + 1) (by omega)
        rwa [show c + (j + 1) = c + 1 + j by omega] at this
      have hf : (processFasta (w.env filename (c + 1 + k))).ret < 0 := by
        rwa [show c + (k + 1) = c + 1 + k by omega] at hfail
      simp only [repeatLoop, if_neg h0]
      cases (processFasta (w.env filename c)).records with
      | none =>
        obtain ⟨h1, h2⟩ := ih k (processFasta (w.env filename c)).ret (c + 1) freed
          (by omega) hb hf
        exact ⟨h1, by rw [h2]; omega⟩
      | some records =>
        obtain ⟨h1, h2⟩ := ih k (processFasta (w.env filename c)).ret (c + 1)
          (freed ++ freeRecords c records (processFasta (w.env filename c)).ret)
          (by omega) hb hf
        exact ⟨h1, by rw [h2]; omega⟩

/-- When no repetition has a negative status, all `n` are performed and the
status of the last one is returned (the status on entry when `n = 0`). -/
theorem repeatLoop_completes (w : World) (filename : String) :
    ∀ (n : Nat) (status : Int) (c : Nat) (freed : List Block),
      (∀ j, j < n → 0 ≤ (processFasta (w.env filename (c + j))).ret) →
      (repeatLoop w filename n status c freed).calls = c + n ∧
      (repeatLoop w filename n status c freed).ret =
        (if n = 0 then status else (processFasta (w.env filename (c + (n - 1)))).ret) := by
  intro n
  induction n with
  | zero => intro status c freed _; exact ⟨rfl, rfl⟩
  | succ n ih =>
    intro status c freed hall
    have h0 : ¬ (processFasta (w.env filename c)).ret < 0 := by
      have := hall 0 (by omega)
      simp only [Nat.add_zero] at this
      omega
    have hb : ∀ j, j < n → 0 ≤ (processFasta (w.env filename (c + 1 + j))).ret := by
      intro j hj
      have := hall (j + 1) (by omega)
      rwa [show c + (j + 1) = c + 1 + j by omega] at this
    have hlast : (if n = 0 then (processFasta (w.env filename c)).ret
        else (processFasta (w.env filename (c + 1 + (n - 1)))).ret) =
        (processFasta (w.env filename (c + (n + 1 - 1)))).ret := by
      cases n with
      | zero => simp
      | succ m =>
        rw [if_neg (by omega)]
        congr 3
        omega
    simp only [repeatLoop, if_neg h0, if_neg (Nat.succ_ne_zero n)]
    cases (processFasta (w.env filename c)).records with
    | none =>
      obtain ⟨h1, h2⟩ := ih (processFasta (w.env filename c)).ret (c + 1) freed hb
      exact ⟨by rw [h1]; omega, by rw [h2, hlast]⟩
    | some records =>
      obtain ⟨h1, h2⟩ := ih (processFasta (w.env filename c)).ret (c + 1)
        (freed ++ freeRecords c records (processFasta (w.env filename c)).ret) hb
      exact ⟨by rw [h1]; omega, by rw [h2, hlast]⟩

theorem mainLoop_file_fails (w : World) (filename : String) (rest : List String)
    (repeatsRequested total : Int) (calls : Nat) (hfile : filename.toList[0]? ≠ some '-')
    (hneg : (processFastaRepeatedly w filename repeatsRequested calls).ret < 0) :
    mainLoop w (filename :: rest) repeatsRequested total calls =
      { exitCode := 1
        calls := (processFastaRepeatedly w filename repeatsRequested calls).calls } := by
  rw [mainLoop.eq_def]
  simp only [if_neg hfile, if_pos hneg]

theorem mainLoop_file_ok (w : World) (filename : String) (rest : List String)
    (repeatsRequested total : Int) (calls : Nat) (hfile : filename.toList[0]? ≠ some '-')
    (hok : 0 ≤ (processFastaRepeatedly w filename repeatsRequested calls).ret) :
    mainLoop w (filename :: rest) repeatsRequested total calls =
      mainLoop w rest repeatsRequested
        (wrapInt (total + (processFastaRepeatedly w filename repeatsRequested calls).ret))
        (processFastaRepeatedly w filename repeatsRequested calls).calls := by
  have hneg : ¬ (processFastaRepeatedly w filename repeatsRequested calls).ret < 0 := by omega
  rw [mainLoop.eq_def]
  simp only [if_neg hfile, if_neg hneg]

/-- C7: for a repeat count `R ≥ 1`, if repetition `k` (`1 ≤ k ≤ R`) of
`processFasta` fails after `k - 1` repetitions that ended at end of stream,
`processFastaRepeatedly` has made exactly `k` calls of `processFasta` and
returns a negative status, and `main`, whatever it did before and whatever
arguments follow, returns exit code 1 without a further call; if all `R`
repetitions end at end of stream, exactly `R` calls are made and the value
returned is the record count of the last repetition, which is not negative. -/
theorem processFastaRepeatedly_stops_at_failure (w : World) (filename : String)
    (R : Int) (calls : Nat) (hsane : ∀ n, SanePlatform (w.env filename n)) (hR : 1 ≤ R) :
    (∀ k : Nat, 1 ≤ k → (k : Int) ≤ R →
      (∀ j, j + 1 < k →
        (processFasta (w.env filename (calls + j))).exit = Exit.endOfStream) →
      (processFasta (w.env filename (calls + (k - 1)))).exit ≠ Exit.endOfStream →
      (processFastaRepeatedly w filename R calls).calls = calls + k ∧
      (processFastaRepeatedly w filename R calls).ret < 0 ∧
      (filename.toList[0]? ≠ some '-' → ∀ (rest : List String) (total : Int),
        mainLoop w (filename :: rest) R total calls =
          { exitCode := 1, calls := calls + k })) ∧
    ((∀ j : Nat, (j : Int) < R →
        (processFasta (w.env filename (calls + j))).exit = Exit.endOfStream) →
      (processFastaRepeatedly w filename R calls).calls = calls + R.toNat ∧
      (processFastaRepeatedly w filename R calls).ret =
        (processFasta (w.env filename (calls + (R.toNat - 1)))).currentRecordCount ∧
      0 ≤ (processFastaRepeatedly w filename R calls).ret) := by
  have hsign := fun n => processFasta_ret_sign (hsane n)
  constructor
  · intro k hk1 hkR hbefore hfail
    have hb : ∀ j, j < k - 1 → 0 ≤ (processFasta (w.env filename (calls + j))).ret := by
      intro j hj
      have h1 := (hsign (calls + j)).1
      have h2 := hbefore j (by omega)
      by_contra hneg
      exact (h1.mp (by omega)) h2
    have hf : (processFasta (w.env filename (calls + (k - 1)))).ret < 0 :=
      (hsign _).1.mpr hfail
    obtain ⟨h1, h2⟩ := repeatLoop_fails w filename R.toNat (k - 1) w.indeterminate calls []
      (by omega) hb hf
    have hcalls : (processFastaRepeatedly w filename R calls).calls = calls + k := by
      show (repeatLoop w filename R.toNat w.indeterminate calls []).calls = _
      rw [h2]; omega
    have hret : (processFastaRepeatedly w filename R calls).ret = -1 := h1
    refine ⟨hcalls, by rw [hret]; decide, fun hfile rest total => ?_⟩
    rw [mainLoop_file_fails w filename rest R total calls hfile (by rw [hret]; decide), hcalls]
  · intro hall
    have hb : ∀ j, j < R.toNat → 0 ≤ (processFasta (w.env filename (calls + j))).ret := by
      intro j hj
      have h1 := (hsign (calls + j)).1
      have h2 := hall j (by omega)
      by_contra hneg
      exact (h1.mp (by omega)) h2
    obtain ⟨h1, h2⟩ := repeatLoop_completes w filename R.toNat w.indeterminate calls [] hb
    rw [if_neg (by omega)] at h2
    have hlast := hb (R.toNat - 1) (by omega)
    have heof := hall (R.toNat - 1) (by omega)
    refine ⟨h1, ?_, ?_⟩
    · show (repeatLoop w filename R.toNat w.indeterminate calls []).ret = _
      rw [h2]
      exact (hsign _).2 heof
    · show 0 ≤ (repeatLoop w filename R.toNat w.indeterminate calls []).ret
      rw [h2]
      exact hlast

/-! ## The argument loop of main -/

theorem sscanfLd_option (flag : String) (h0 : flag.toList[0]? = some '-')
    (h1 : flag.toList[1]? = some 'R') : sscanfLd flag = none := by
  unfold sscanfLd
  cases hl : flag.toList with
  | nil => rw [hl] at h0; simp at h0
  | cons a t =>
    rw [hl] at h0 h1
    have ha : a = '-' := by simpa using h0
    subst ha
    cases t with
    | nil => simp at h1
    | cons b t2 =>
      have hb : b = 'R' := by simpa using h1
      subst hb
      rfl

theorem mainLoop_option_last (w : World) (flag : String) (repeats total : Int) (calls : Nat)
    (h0 : flag.toList[0]? = some '-') (h1 : flag.toList[1]? = some 'R') :
    mainLoop w [flag] repeats total calls = { exitCode := 1, calls := calls } := by
  rw [mainLoop.eq_def]
  simp only [if_pos h0, if_pos h1]

theorem mainLoop_option_next (w : World) (flag next : String) (rest : List String)
    (repeats total : Int) (calls : Nat)
    (h0 : flag.toList[0]? = some '-') (h1 : flag.toList[1]? = some 'R') :
    mainLoop w (flag :: next :: rest) repeats total calls =
      match sscanfLd next with
      | some v => mainLoop w rest v total calls
      | none => { exitCode := 1, calls := calls } := by
  rw [mainLoop.eq_def]
  simp only [if_pos h0, if_pos h1]

theorem mainLoop_option_unknown (w : World) (arg : String) (rest : List String)
    (repeats total : Int) (calls : Nat)
    (h0 : arg.toList[0]? = some '-') (h1 : arg.toList[1]? ≠ some 'R') :
    mainLoop w (arg :: rest) repeats total calls = { exitCode := 1, calls := calls } := by
  rw [mainLoop.eq_def]
  simp only [if_pos h0, if_neg h1]

/-- When the scan reaches a `-R` that has no argument or one `sscanf` cannot
read, `main` returns 1 at once. -/
theorem mainLoop_bad_repeat (w : World) (flag : String) (post : List String)
    (h0 : flag.toList[0]? = some '-') (h1 : flag.toList[1]? = some 'R')
    (hpost : ∀ next ∈ post.head?, sscanfLd next = none)
    (repeats total : Int) (calls : Nat) :
    mainLoop w (flag :: post) repeats total calls = { exitCode := 1, calls := calls } := by
  cases post with
  | nil => exact mainLoop_option_last w flag repeats total calls h0 h1
  | cons next rest =>
    rw [mainLoop_option_next w flag next rest repeats total calls h0 h1,
      hpost next (by simp)]

/-- Whatever precedes such a `-R`, the run ends with exit code 1 and is the
run of the argument list cut after the `-R`. -/
theorem mainLoop_before_bad_repeat (w : World) (flag : String) (post : List String)
    (h0 : flag.toList[0]? = some '-') (h1 : flag.toList[1]? = some 'R')
    (hpost : ∀ next ∈ post.head?, sscanfLd next = none) :
    ∀ (n : Nat) (pre : List String), pre.length ≤ n →
      ∀ (repeats total : Int) (calls : Nat),
        (mainLoop w (pre ++ flag :: post) repeats total calls).exitCode = 1 ∧
        mainLoop w (pre ++ flag :: post) repeats total calls =
          mainLoop w (pre ++ [flag]) repeats total calls := by
  intro n
  induction n with
  | zero =>
    intro pre hlen repeats total calls
    have hnil : pre = [] := List.length_eq_zero.mp (by omega)
    subst hnil
    rw [List.nil_append, List.nil_append,
      mainLoop_bad_repeat w flag post h0 h1 hpost,
      mainLoop_option_last w flag repeats total calls h0 h1]
    exact ⟨rfl, rfl⟩
  | succ n ih =>
    intro pre hlen repeats total calls
    cases pre with
    | nil => exact ih [] (by simp) repeats total calls
    | cons a pre1 =>
      have hlen1 : pre1.length ≤ n := by simpa using hlen
      rw [List.cons_append, List.cons_append]
      by_cases ha0 : a.toList[0]? = some '-'
      · by_cases ha1 : a.toList[1]? = some 'R'
        · cases pre1 with
          | nil =>
            rw [List.nil_append, List.nil_append,
              mainLoop_option_next w a flag post repeats total calls ha0 ha1,
              mainLoop_option_next w a flag [] repeats total calls ha0 ha1,
              sscanfLd_option flag h0 h1]
            exact ⟨rfl, rfl⟩
          | cons b pre2 =>
            rw [List.cons_append, List.cons_append,
              mainLoop_option_next w a b _ repeats total calls ha0 ha1,
              mainLoop_option_next w a b _ repeats total calls ha0 ha1]
            cases hb : sscanfLd b with
            | none => exact ⟨rfl, rfl⟩
            | some v =>
              exact ih pre2 (by simp at hlen1; omega) v total calls
        · rw [mainLoop_option_unknown w a _ repeats total calls ha0 ha1,
            mainLoop_option_unknown w a _ repeats total calls ha0 ha1]
          exact ⟨rfl, rfl⟩
      · by_cases hneg : (processFastaRepeatedly w a repeats calls).ret < 0
        · rw [mainLoop_file_fails w a _ repeats total calls ha0 hneg,
            mainLoop_file_fails w a _ repeats total calls ha0 hneg]
          exact ⟨rfl, rfl⟩
        · rw [mainLoop_file_ok w a _ repeats total calls ha0 (by omega),
            mainLoop_file_ok w a _ repeats total calls ha0 (by omega)]
          exact ih pre1 hlen1 _ _ _

/-- C8 (amended): for every argument list in which a `-R` option is followed by
no argument, or by an argument from which `sscanf` with `%ld` reads no integer,
`main` returns exit code 1, and it runs exactly as on the list cut after that
`-R`: no later file is processed. When the scan reaches the option, `main`
returns at once, without a call of `processFasta`. -/
theorem main_rejects_unreadable_repeat_count (w : World) (prog : String)
    (pre : List String) (flag : String) (post : List String)
    (h0 : flag.toList[0]? = some '-') (h1 : flag.toList[1]? = some 'R')
    (hpost : ∀ next ∈ post.head?, sscanfLd next = none) :
    (main w (prog :: (pre ++ flag :: post))).exitCode = 1 ∧
    main w (prog :: (pre ++ flag :: post)) = main w (prog :: (pre ++ [flag])) ∧
    ∀ (repeats total : Int) (calls : Nat),
      mainLoop w (flag :: post) repeats total calls = { exitCode := 1, calls := calls } := by
  obtain ⟨h2, h3⟩ := mainLoop_before_bad_repeat w flag post h0 h1 hpost pre.length pre
    (Nat.le_refl _) 1 0 0
  exact ⟨h2, h3, mainLoop_bad_repeat w flag post h0 h1 hpost⟩

theorem readLoop_streamOpen (env : Env) :
    ∀ (script : List ReadResult) (s : LoopState) (c : Nat),
      ((readLoop env script s c).exit = Exit.endOfStream ∧
        (readLoop env script s c).streamOpen = false) ∨
      (((readLoop env script s c).exit = Exit.readerFailed ∨
          (readLoop env script s c).exit = Exit.reallocFailed) ∧
        (readLoop env script s c).streamOpen = true) := by
  intro script
  induction script with
  | nil => intro s c; exact Or.inl ⟨rfl, rfl⟩
  | cons r rest ih =>
    intro s c
    rcases Int.lt_trichotomy r.status 0 with hneg | hzero | hpos
    · rw [readLoop_cons_neg env r rest hneg]
      exact Or.inr ⟨Or.inl rfl, rfl⟩
    · rw [readLoop_eof_head env (r :: rest) (by intro e he; simp at he; rw [← he]; exact hzero)]
      exact Or.inl ⟨rfl, rfl⟩
    · cases hst : storeRecord env s r.record with
      | none =>
        rw [readLoop_cons_none env r rest hpos s c hst]
        exact Or.inr ⟨Or.inr rfl, rfl⟩
      | some s1 =>
        rw [readLoop_cons_some env r rest hpos s s1 c hst]
        exact ih s1 (c + 1)

/-- The stream is open at the return of `processFasta` exactly on the three
failure exits taken after `fopen` succeeded: only the end-of-stream exit
calls `fclose`. -/
theorem processFasta_streamOpen_iff (env : Env) :
    (processFasta env).streamOpen = true ↔
      ((processFasta env).exit = Exit.mallocFailed ∨
        (processFasta env).exit = Exit.reallocFailed ∨
        (processFasta env).exit = Exit.readerFailed) := by
  unfold processFasta
  cases env.fopenOk
  · simp
  · cases env.mallocOk
    · simp
    · simp only [if_true]
      rcases readLoop_streamOpen env env.reader (initialState env) 0 with
        ⟨h1, h2⟩ | ⟨h1 | h1, h2⟩ <;> rw [h1, h2] <;> simp

theorem recordBuffers_append (xs ys : List FASTArecord) :
    recordBuffers (xs ++ ys) = recordBuffers xs ++ recordBuffers ys := by
  induction xs with
  | nil => rfl
  | cons x t ih =>
    show Block.buffer x.description :: Block.buffer x.sequence :: recordBuffers (t ++ ys) = _
    rw [ih]
    rfl

theorem freeLoop_stored {s : LoopState} {stored : List FASTArecord} (hinv : Inv s stored) :
    ∀ (n : Nat), n ≤ stored.length → ∀ (init : List Block),
      (List.range n).foldr (fun j rest => freeRecord s.records[j]? ++ rest) init =
        recordBuffers (stored.take n) ++ init := by
  intro n
  induction n with
  | zero => intro _ init; rfl
  | succ n ih =>
    intro hn init
    have hlt : n < stored.length := by omega
    rw [List.range_succ, List.foldr_append, List.foldr_cons, List.foldr_nil,
      ih (by omega), slot_of_inv hinv n hlt, List.take_succ, recordBuffers_append,
      List.getElem?_eq_getElem hlt, List.append_assoc]
    rfl

/-- The release loop on the array of a state satisfying the invariant, with
the record count as `status`: the two buffers of every stored record, in
order, then the array. -/
theorem freeRecords_stored {s : LoopState} {stored : List FASTArecord} (hinv : Inv s stored)
    (call : Nat) :
    freeRecords call s.records (stored.length : Int) =
      recordBuffers stored ++ [Block.array call] := by
  unfold freeRecords
  rw [Int.toNat_ofNat, freeLoop_stored hinv stored.length (Nat.le_refl _), List.take_length]

/-- A repetition that ends at end of stream is followed by the release of
exactly the buffers of the records it stored, record by record, and of its
array: the success path of `processFastaRepeatedly` frees what the store
owns. -/
theorem processFastaRepeatedly_frees_stored (w : World) (filename : String) (calls : Nat)
    (pos tail : List ReadResult) (hp : SanePlatform (w.env filename calls))
    (hreader : (w.env filename calls).reader = pos ++ tail)
    (hpos : ∀ e ∈ pos, 0 < e.status) (htail : ∀ e ∈ tail.head?, e.status = 0)
    (hexit : (processFasta (w.env filename calls)).exit = Exit.endOfStream) :
    processFastaRepeatedly w filename 1 calls =
      { ret := (pos.length : Int)
        calls := calls + 1
        freed := recordBuffers (pos.map (fun e => e.record)) ++ [Block.array calls] } := by
  obtain ⟨sf, hinv, heq⟩ := (processFasta_records hp hreader hpos htail).1 hexit
  have hcount := hinv.count
  have hfree := freeRecords_stored hinv calls
  rw [List.length_map] at hcount hfree
  have hnn : ¬ (pos.length : Int) < 0 := by omega
  show repeatLoop w filename 1 w.indeterminate calls [] = _
  simp only [repeatLoop, heq, finishAtEof, hcount, hfree, List.nil_append, if_neg hnn]

/-- C4 (the code at the failing input): on a file whose first reader call
returns a negative status, `processFasta` returns -1 through line 78 and the
stream it opened is not closed. -/
theorem processFasta_reader_failure_leaves_stream_open :
    (sampleWorld.env "broken.fa" 0).fopenOk = true ∧
    (processFasta (sampleWorld.env "broken.fa" 0)).exit = Exit.readerFailed ∧
    (processFasta (sampleWorld.env "broken.fa" 0)).ret = -1 ∧
    (processFasta (sampleWorld.env "broken.fa" 0)).streamOpen = true := by
  decide

/-- C6 (the code at the failing input): when the reader fails after one
record, `processFasta` hands back the array with the record in slot 0, and
`processFastaRepeatedly` returns -1 without a single `free`; when the reader
fails on the first call the array of one unwritten slot is likewise never
freed. -/
theorem processFastaRepeatedly_failure_frees_nothing :
    (processFasta (sampleWorld.env "cut.fa" 0)).records = some [some ⟨4096, 4128⟩] ∧
    (processFastaRepeatedly sampleWorld "cut.fa" 1 0).ret = -1 ∧
    (processFastaRepeatedly sampleWorld "cut.fa" 1 0).freed = [] ∧
    (processFasta (sampleWorld.env "broken.fa" 0)).records = some [none] ∧
    (processFastaRepeatedly sampleWorld "broken.fa" 1 0).ret = -1 ∧
    (processFastaRepeatedly sampleWorld "broken.fa" 1 0).freed = [] := by
  decide

/-! ## Counterexamples -/

/-- C8 as stated fails: `0` is read by `sscanf` as the repeat count although it
is not positive, and `main` goes on to return exit code 0. -/
theorem main_accepts_zero_repeat_count :
    sscanfLd "0" = some 0 ∧
    (main sampleWorld ["arraydouble", "good.fa", "-R", "0"]).exitCode = 0 := by
  decide

theorem sampleEnv_sane (reader : List ReadResult) : SanePlatform (sampleEnv reader) :=
  ⟨by show 0 < 16; decide, by show 16 ≤ 4294967296; decide,
    fun b h => by simpa [sampleEnv] using h⟩

theorem sampleEnv_grants (reader : List ReadResult) (b : Nat)
    (hb : b ≤ 1073741824 * (sampleEnv reader).recordBytes) :
    (sampleEnv reader).reallocOk b = true := by
  have h16 : (sampleEnv reader).recordBytes = 16 := rfl
  rw [h16] at hb
  simp only [sampleEnv, decide_eq_true_eq]
  omega

theorem sampleWorld_sane (filename : String) (n : Nat) :
    SanePlatform (sampleWorld.env filename n) := by
  unfold sampleWorld
  dsimp only
  split
  · exact sampleEnv_sane _
  · split
    · exact sampleEnv_sane _
    · split
      · exact sampleEnv_sane _
      · exact sampleEnv_sane _

theorem sampleEof_tail : ∀ e ∈ [sampleEof].head?, e.status = 0 := by
  intro e he
  simp only [List.head?_cons, Option.mem_def, Option.some.injEq] at he
  rw [← he]
  rfl

/-- C1 at the three sample records: capacity 4 is reached at end of stream. -/
theorem processFasta_capacity_witness :
    (processFasta (sampleEnv (sampleRecords ++ [sampleEof]))).exit = Exit.endOfStream ∧
    (processFasta (sampleEnv (sampleRecords ++ [sampleEof]))).currentRecordCount = 3 ∧
    ∃ k : Nat, (processFasta (sampleEnv (sampleRecords ++ [sampleEof]))).recordArraySize
        = ((2 ^ k : Nat) : Int) ∧
      sampleRecords.length ≤ 2 ^ k ∧ ∀ j : Nat, sampleRecords.length ≤ 2 ^ j → 2 ^ k ≤ 2 ^ j :=
  have h := processFasta_capacity_least_power_of_two
    (sampleEnv (sampleRecords ++ [sampleEof])) sampleRecords [sampleEof]
    (sampleEnv_sane _) rfl (by decide) sampleEof_tail
  have hexit := h.2 (by decide) rfl rfl (sampleEnv_grants _)
  ⟨hexit, (h.1 hexit).1, (h.1 hexit).2.1⟩

/-- C2 at the sample state: the array of 2 slots is full, the append doubles it
and writes slot 2. -/
theorem readLoop_count_le_capacity_witness :
    sampleState ∈ reachedStates (sampleEnv (sampleRecords ++ [sampleEof])) ∧
    sampleState.currentRecordCount ≤ sampleState.recordArraySize ∧
    ∃ s1, storeRecord (sampleEnv (sampleRecords ++ [sampleEof])) sampleState ⟨4224, 4256⟩
        = some s1 ∧
      s1.recordArraySize = 2 * sampleState.recordArraySize ∧
      s1.records[sampleState.currentRecordCount.toNat]? = some (some ⟨4224, 4256⟩) :=
  have hmem : sampleState ∈ reachedStates (sampleEnv (sampleRecords ++ [sampleEof])) := by
    decide
  have h := readLoop_count_le_capacity (sampleEnv (sampleRecords ++ [sampleEof]))
    (sampleEnv_sane _) sampleState hmem
  ⟨hmem, h.2.1, by
    rcases h.2.2.2.2 ⟨4224, 4256⟩ with ⟨hnone, -⟩ | ⟨s1, hsome, hd, -, -, -, hslot⟩
    · exact absurd hnone (by decide)
    · exact ⟨s1, hsome, hd rfl, hslot⟩⟩

/-- C3 at the three sample records. -/
theorem processFasta_stores_in_order_witness :
    (processFasta (sampleEnv (sampleRecords ++ [sampleEof]))).ret = 3 ∧
    ∃ slots, (processFasta (sampleEnv (sampleRecords ++ [sampleEof]))).records = some slots ∧
      ∀ (i : Nat) (hi : i < sampleRecords.length),
        slots[i]? = some (some (sampleRecords.get ⟨i, hi⟩).record) :=
  (processFasta_stores_in_order (sampleEnv (sampleRecords ++ [sampleEof])) sampleRecords
    [sampleEof] (sampleEnv_sane _) rfl (by decide) sampleEof_tail).1 (by decide)

/-- C5 at a reader that fails after one record, and at an allocator that
refuses the first growth: both calls return -1 after two reader calls. -/
theorem processFasta_negative_iff_failure_witness :
    ((processFasta (sampleEnv [⟨1, ⟨4096, 4128⟩⟩, ⟨-1, ⟨0, 0⟩⟩])).exit = Exit.readerFailed ∧
      (processFasta (sampleEnv [⟨1, ⟨4096, 4128⟩⟩, ⟨-1, ⟨0, 0⟩⟩])).ret = -1 ∧
      (processFasta (sampleEnv [⟨1, ⟨4096, 4128⟩⟩, ⟨-1, ⟨0, 0⟩⟩])).readerCalls = 1 + 1) ∧
    ((processFasta (refusingEnv (sampleRecords ++ [sampleEof]))).exit = Exit.reallocFailed ∧
      (processFasta (refusingEnv (sampleRecords ++ [sampleEof]))).ret = -1 ∧
      (processFasta (refusingEnv (sampleRecords ++ [sampleEof]))).readerCalls = 1 + 1) ∧
    failureOccurs (refusingEnv (sampleRecords ++ [sampleEof])) :=
  have hreader := processFasta_negative_iff_failure
    (sampleEnv [⟨1, ⟨4096, 4128⟩⟩, ⟨-1, ⟨0, 0⟩⟩]) (sampleEnv_sane _)
  have hrefuse := processFasta_negative_iff_failure
    (refusingEnv (sampleRecords ++ [sampleEof]))
    ⟨by show 0 < 16; decide, by show 16 ≤ 4294967296; decide,
      fun _ h => Bool.noConfusion h⟩
  ⟨(hreader.2.1 1 sampleStateFull ⟨-1, ⟨0, 0⟩⟩ (by decide) (by decide)).1 (by decide),
    (hrefuse.2.1 1 sampleStateFull ⟨1, ⟨4160, 4192⟩⟩ (by decide) (by decide)).2 (by decide)
      ⟨rfl, rfl⟩,
    hrefuse.1.mp (by decide)⟩

/-- C7 at a file whose first repetition fails and at a file read three times. -/
theorem processFastaRepeatedly_stops_at_failure_witness :
    (processFastaRepeatedly sampleWorld "cut.fa" 3 0).calls = 1 ∧
    (processFastaRepeatedly sampleWorld "cut.fa" 3 0).ret < 0 ∧
    (processFastaRepeatedly sampleWorld "good.fa" 3 0).calls = 3 ∧
    0 ≤ (processFastaRepeatedly sampleWorld "good.fa" 3 0).ret :=
  have hbad := (processFastaRepeatedly_stops_at_failure sampleWorld "cut.fa" 3 0
    (sampleWorld_sane _) (by decide)).1 1 (by decide) (by decide)
    (fun j hj => absurd hj (by omega)) (by decide)
  have hgood := (processFastaRepeatedly_stops_at_failure sampleWorld "good.fa" 3 0
    (sampleWorld_sane _) (by decide)).2 (fun j _ => by
      show (processFasta (sampleEnv (sampleRecords ++ [sampleEof]))).exit = Exit.endOfStream
      decide)
  ⟨hbad.1, hbad.2.1, hgood.1, hgood.2.2⟩

/-- C8 (amended) at a `-R` followed by `x3`. -/
theorem main_rejects_unreadable_repeat_count_witness :
    (main sampleWorld ["arraydouble", "good.fa", "-R", "x3", "more.fa"]).exitCode = 1 ∧
    main sampleWorld ["arraydouble", "good.fa", "-R", "x3", "more.fa"] =
      main sampleWorld ["arraydouble", "good.fa", "-R"] :=
  have h := main_rejects_unreadable_repeat_count sampleWorld "arraydouble" ["good.fa"] "-R"
    ["x3", "more.fa"] (by decide) (by decide)
    (by intro next hn
        simp only [List.head?_cons, Option.mem_def, Option.some.injEq] at hn
        rw [← hn]
        decide)
  ⟨h.1, h.2.1⟩

/-- C10 at the three sample records: one slot of four is wasted. -/
theorem processFasta_waste_below_half_witness :
    (processFasta (sampleEnv (sampleRecords ++ [sampleEof]))).recordArraySize < 2 * 3 ∧
    wasteFraction (processFasta (sampleEnv (sampleRecords ++ [sampleEof]))) < 1 / 2 :=
  have h := (processFasta_waste_below_half (sampleEnv (sampleRecords ++ [sampleEof]))
    sampleRecords [sampleEof] (sampleEnv_sane _) rfl (by decide) sampleEof_tail).1 (by decide)
  ⟨(h.2.1 (by decide)).2.1, (h.2.1 (by decide)).2.2.1⟩

end ArrayDouble
